import Mathlib

set_option maxHeartbeats 1000000

/-
  Verification of the qflybreeze/thread_pool repository.

  Shallow embedding of src/threadpool.h and src/threadpool.cpp:
  - the bounded priority task queue (std::priority_queue<myTask> over a
    std::vector, i.e. an array-backed binary max-heap keyed on the
    myTask::operator< comparison of weight_);
  - the ThreadPool state (threads_, counters, thresholds, mode, policy,
    running flag) and its operations: the constructor, the configuration
    setters, start, the first phase of the destructor (which begins the
    shutdown), submitTaskWithPriority, and one iteration of threadFunc.

  Machine integers: C++ int fields are modelled as Int (no arithmetic in the
  sources can overflow on the values involved); the two places where the code
  converts an int to size_t for a comparison are modelled explicitly with
  reduction modulo 2^64 (LP64).  Real time (the 1 second bounded wait of the
  submission and the 60 second idle window) is modelled by oracles: a branch
  that the code takes only when a wait times out is guarded by a Boolean
  parameter of the step function.
-/

/-- PoolMode (threadpool.h:16-20). -/
inductive PoolMode where
  | MODE_FIXED
  | MODE_CACHED
deriving DecidableEq

/-- RejectionPolicy (threadpool.h:22-27). -/
inductive RejectionPolicy where
  | Abort
  | Discard
  | CallerRuns
deriving DecidableEq

/-- An element of the task queue: ThreadPool::myTask (threadpool.h:168-195).
weight_ is the priority weight; taskId identifies the wrapped ITask, i.e.
the packaged_task created for one particular submission. -/
structure myTask where
  weight_ : Int
  taskId : Nat
deriving DecidableEq

/-- myTask::operator< (threadpool.h:189-192): compares the weights. -/
def myTask.lt (a b : myTask) : Bool := decide (a.weight_ < b.weight_)

/-- The content a completion handle (std::future) can eventually hold:
the value the payload returned, the failure it raised (payload failures are
modelled as numeric codes), or the std::future_error with condition
broken_promise that the destructor of an unrun packaged_task stores when it
abandons the shared state. -/
inductive TaskOutcome where
  | value (v : Int)
  | error (e : Nat)
  | brokenPromise
deriving DecidableEq

/-- The C++ conversion of a (possibly negative) int to size_t, as performed
by the two casts in submitTaskWithPriority (threadpool.h:76 and :104) on the
LP64 platforms this repository targets: reduction modulo 2^64. -/
def castSizeT (x : Int) : Nat := (x % (2:Int)^64).toNat

/-! ### std::priority_queue<myTask>

std::priority_queue over std::vector is an array-backed binary max-heap:
element 0 is the top, the parent of slot i (i > 0) is slot (i-1)/2,
push appends at the end and sifts up, pop moves the last element to the
root and sifts down.  The backing vector is modelled as a length plus a
total function from slot indices to elements (slots at or beyond the
length are junk that is never consulted). -/

/-- The backing store of std::priority_queue<myTask> (threadpool.h:212). -/
structure priority_queue where
  size : Nat
  elems : Nat → myTask

/-- Index of the parent slot of heap slot i. -/
def parent (i : Nat) : Nat := (i - 1) / 2

/-- Pointwise update of the backing store at one slot. -/
def hupd (f : Nat → myTask) (k : Nat) (v : myTask) : Nat → myTask :=
  fun j => if j = k then v else f j

/-- Exchange of the contents of two slots of the backing store. -/
def hswapF (f : Nat → myTask) (i j : Nat) : Nat → myTask :=
  fun k => if k = i then f j else if k = j then f i else f k

/-- Sift-up pass of std::push_heap, structurally recursive on a fuel that
bounds the number of steps: the slot index strictly decreases toward the
root, so fuel equal to the start index always suffices. -/
def siftUpFuel : Nat → (Nat → myTask) → Nat → (Nat → myTask)
  | 0, f, _ => f
  | fuel+1, f, i =>
    if i = 0 then f
    else if myTask.lt (f (parent i)) (f i) = true then
      siftUpFuel fuel (hswapF f i (parent i)) (parent i)
    else f

/-- std::push_heap restoring the heap after an append at slot i. -/
def siftUp (f : Nat → myTask) (i : Nat) : Nat → myTask := siftUpFuel i f i

/-- Sift-down pass of std::pop_heap over the first n slots, structurally
recursive on a fuel: every step moves to a child slot below n, so the
recursion depth is bounded by n. -/
def siftDownFuel : Nat → Nat → (Nat → myTask) → Nat → (Nat → myTask)
  | 0, _, f, _ => f
  | fuel+1, n, f, i =>
    let l := 2*i+1
    let r := 2*i+2
    let m1 := if l < n ∧ myTask.lt (f i) (f l) = true then l else i
    let m := if r < n ∧ myTask.lt (f m1) (f r) = true then r else m1
    if m = i then f else siftDownFuel fuel n (hswapF f i m) m

/-- std::pop_heap sift-down over the first n slots starting at slot i. -/
def siftDown (n : Nat) (f : Nat → myTask) (i : Nat) : Nat → myTask :=
  siftDownFuel n n f i

namespace priority_queue

/-- priority_queue::push / emplace (used at threadpool.h:100): append the
new element after the last slot, then sift it up. -/
def push (q : priority_queue) (t : myTask) : priority_queue :=
  { size := q.size + 1, elems := siftUp (hupd q.elems q.size t) q.size }

/-- priority_queue::top: the root slot of the heap. -/
def top (q : priority_queue) : myTask := q.elems 0

/-- priority_queue::pop: move the last element to the root, shrink by one,
sift down from the root (no-op on an empty queue, where the C++ call would
be undefined). -/
def pop (q : priority_queue) : priority_queue :=
  if q.size = 0 then q
  else
    { size := q.size - 1,
      elems := siftDown (q.size - 1) (hupd q.elems 0 (q.elems (q.size - 1))) 0 }

/-- The multiset of elements currently stored in the queue. -/
def toMulti (q : priority_queue) : Multiset myTask :=
  (Multiset.range q.size).map q.elems

/-- The binary max-heap invariant of the backing vector: every non-root slot
holds a weight no larger than its parent slot. -/
def IsHeap (q : priority_queue) : Prop :=
  ∀ i, i < q.size → 0 < i → (q.elems i).weight_ ≤ (q.elems (parent i)).weight_

instance (q : priority_queue) : Decidable (q.IsHeap) := by
  unfold IsHeap; infer_instance

end priority_queue

/-- The default-constructed element used for junk slots. -/
def defaultTask : myTask := { weight_ := 0, taskId := 0 }

/-- The empty queue. -/
def emptyQueue : priority_queue := { size := 0, elems := fun _ => defaultTask }

/-! ### ThreadPool state -/

/-- TASK_MAX_THRESHHOLD (threadpool.cpp:6): INT32_MAX. -/
def TASK_MAX_THRESHHOLD : Int := 2147483647

/-- THREAD_MAX_THRESHHOLD (threadpool.cpp:7). -/
def THREAD_MAX_THRESHHOLD : Int := 1024

/-- THREAD_MAX_IDLE_TIME in seconds (threadpool.cpp:8). -/
def THREAD_MAX_IDLE_TIME : Int := 60

/-- The data members of class ThreadPool (threadpool.h:197-224).
threads_ is the Worker registry (the key set of the unordered_map of
Thread objects); nextThreadId models Thread::generateId_, the counter
from which fresh worker identities are drawn. -/
structure ThreadPoolState where
  threads_ : List Nat
  initThreadSize_ : Int
  threadSizeThreshHold_ : Int
  curThreadSize_ : Int
  idleThreadSize_ : Int
  taskQue_ : priority_queue
  taskQueMaxThreshHold_ : Int
  poolMode_ : PoolMode
  rejectionPolicy_ : RejectionPolicy
  isPoolRunning_ : Bool
  nextThreadId : Nat

/-- ThreadPool::ThreadPool() (threadpool.cpp:10-17) together with the
in-class initializer of rejectionPolicy_ (threadpool.h:221): counters 0,
queue empty, queue threshold INT32_MAX, thread ceiling 1024, fixed mode,
Abort policy, and the running flag initialized to false. -/
def threadPoolCtor : ThreadPoolState :=
  { threads_ := []
    initThreadSize_ := 0
    threadSizeThreshHold_ := THREAD_MAX_THRESHHOLD
    curThreadSize_ := 0
    idleThreadSize_ := 0
    taskQue_ := emptyQueue
    taskQueMaxThreshHold_ := TASK_MAX_THRESHHOLD
    poolMode_ := PoolMode.MODE_FIXED
    rejectionPolicy_ := RejectionPolicy.Abort
    isPoolRunning_ := false
    nextThreadId := 0 }

/-- ThreadPool::checkRunningState (threadpool.cpp:161-164). -/
def checkRunningState (s : ThreadPoolState) : Bool := s.isPoolRunning_

/-- ThreadPool::setMode (threadpool.cpp:31-38). -/
def setMode (s : ThreadPoolState) (mode : PoolMode) : ThreadPoolState :=
  if checkRunningState s then s else { s with poolMode_ := mode }

/-- ThreadPool::setTaskQueMaxThreshHold (threadpool.cpp:40-47). -/
def setTaskQueMaxThreshHold (s : ThreadPoolState) (threshhold : Int) : ThreadPoolState :=
  if checkRunningState s then s else { s with taskQueMaxThreshHold_ := threshhold }

/-- ThreadPool::setThreadSizeThreshHold (threadpool.cpp:49-59): only takes
effect before start and only in cached mode. -/
def setThreadSizeThreshHold (s : ThreadPoolState) (threshhold : Int) : ThreadPoolState :=
  if checkRunningState s then s
  else if s.poolMode_ = PoolMode.MODE_CACHED then
    { s with threadSizeThreshHold_ := threshhold }
  else s

/-- ThreadPool::start (threadpool.cpp:61-81): set the running flag, record
the initial thread count, create initThreadSize Thread objects with fresh
ids from the shared id counter, register them, then start them. -/
def start (s : ThreadPoolState) (initThreadSize : Int) : ThreadPoolState :=
  { s with
    isPoolRunning_ := true
    initThreadSize_ := initThreadSize
    curThreadSize_ := initThreadSize
    threads_ := s.threads_ ++ (List.range initThreadSize.toNat).map (fun k => s.nextThreadId + k)
    nextThreadId := s.nextThreadId + initThreadSize.toNat }

/-- The first phase of ThreadPool::~ThreadPool (threadpool.cpp:19-25): take
the lock, clear the running flag and wake every waiting worker.  This is
the transition that begins the shutdown; the remainder of the destructor
(threadpool.cpp:26-28) only blocks until the worker registry drains, which
happens through subsequent threadFunc steps.  The spec (section 4.5) assigns
the same sequence to the public shutdown() entry point, which is declared at
threadpool.h:42 but has no definition under src/. -/
def shutdownBegin (s : ThreadPoolState) : ThreadPoolState :=
  { s with isPoolRunning_ := false }

/-! ### Execution of payloads

A submitted callable is modelled by its behavior: an Except value that is
either the Int it returns or the failure code it raises. -/

/-- std::packaged_task<R()>::operator(): invokes the stored callable and
stores its returned value, or the exception it raised, into the shared
state observed through the future obtained from the task; the invocation
itself propagates nothing to its caller (second component none). -/
def packagedTaskInvoke (callable : Except Nat Int) : TaskOutcome × Option Nat :=
  match callable with
  | Except.ok v => (TaskOutcome.value v, none)
  | Except.error e => (TaskOutcome.error e, none)

/-- ThreadPool::ConcreteTask<R>::execute (threadpool.h:161-164): runs the
wrapped packaged_task. -/
def ConcreteTask.execute (callable : Except Nat Int) : TaskOutcome × Option Nat :=
  packagedTaskInvoke callable

/-- Where a payload was run: inside a worker thread (threadFunc) or on the
submitting thread (the CallerRuns rejection branch). -/
inductive ExecSite where
  | workerThread (threadid : Nat)
  | callerThread
deriving DecidableEq

/-- The failure a submission can surface synchronously to the submitter.
poolNotAccepting carries the message text of threadpool.h:62, queueFull the
message text of threadpool.h:82. -/
inductive PoolError where
  | poolNotAccepting
  | queueFull
deriving DecidableEq

/-- What submitTaskWithPriority does at its boundary: return the future of
the submitted task, throw a pool error, or rethrow a failure that escaped a
payload run in the caller (provably never produced, since packaged_task
captures payload failures). -/
inductive SubmitResult where
  | returnedFuture (tid : Nat)
  | threw (e : PoolError)
  | threwTaskError (e : Nat)
deriving DecidableEq

/-- Events of one submitTaskWithPriority call, in program order, used to
state where enqueueing, worker registration and worker startup fall
relative to the coordination lock. -/
inductive Ev where
  | lockAcquired
  | lockReleased
  | enqueuedEv (tid : Nat)
  | registeredThread (threadId : Nat)
  | startedThread (threadId : Nat)
  | executedInCaller (tid : Nat)
deriving DecidableEq

/-- The observable world: the pool, the behavior of every submitted
callable (keyed by task id), the state of every completion handle (none =
still pending), and the log of payload executions. -/
structure World where
  pool : ThreadPoolState
  payloadOf : Nat → Except Nat Int
  handles : Nat → Option TaskOutcome
  executed : List (Nat × ExecSite)

/-- A fresh world around a default-constructed pool. -/
def initWorld (env : Nat → Except Nat Int) : World :=
  { pool := threadPoolCtor
    payloadOf := env
    handles := fun _ => none
    executed := [] }

/-- ThreadPool::submitTaskWithPriority (threadpool.h:56-123), one call made
while no other thread interleaves: check the running flag; take the lock and
wait (bounded by one second) for the queue-not-full predicate
taskQue_.size() < (size_t)taskQueMaxThreshHold_; if the wait times out with
the queue still full, apply the rejection policy; otherwise enqueue the
weighted task, and in cached mode, when the post-enqueue queue size exceeds
(size_t)idleThreadSize_ and curThreadSize_ is below the ceiling, register
exactly one new worker under the lock, and start it after the lock is
released.  In the sequential model the queue cannot gain space during the
wait, so the timeout branch is taken exactly when the queue is full at entry.
In the Discard branch the function returns the future while the never-run
packaged_task inside the local task_ptr is destroyed at scope exit; that
destructor abandons the shared state, storing a broken_promise failure and
making the returned handle ready at the moment submit returns.  In the Abort
branch the same destruction happens during stack unwinding, but there the
future is a local that is destroyed with it and never reaches the caller, so
no observable handle remains and the handle map is left unchanged. -/
def submitTaskWithPriority (w : World) (priority : Int) (tid : Nat) :
    World × SubmitResult × List Ev :=
  if w.pool.isPoolRunning_ = false then
    (w, SubmitResult.threw PoolError.poolNotAccepting, [])
  else if ¬ (w.pool.taskQue_.size < castSizeT w.pool.taskQueMaxThreshHold_) then
    match w.pool.rejectionPolicy_ with
    | RejectionPolicy.Abort =>
        (w, SubmitResult.threw PoolError.queueFull, [Ev.lockAcquired, Ev.lockReleased])
    | RejectionPolicy.Discard =>
        ({ w with handles := fun k => if k = tid then some TaskOutcome.brokenPromise
                             else w.handles k },
         SubmitResult.returnedFuture tid, [Ev.lockAcquired, Ev.lockReleased])
    | RejectionPolicy.CallerRuns =>
        let run := ConcreteTask.execute (w.payloadOf tid)
        let w' := { w with
          handles := fun k => if k = tid then some run.1 else w.handles k
          executed := w.executed ++ [(tid, ExecSite.callerThread)] }
        match run.2 with
        | some e =>
            (w', SubmitResult.threwTaskError e,
             [Ev.lockAcquired, Ev.lockReleased, Ev.executedInCaller tid])
        | none =>
            (w', SubmitResult.returnedFuture tid,
             [Ev.lockAcquired, Ev.lockReleased, Ev.executedInCaller tid])
  else
    let q' := w.pool.taskQue_.push { weight_ := priority, taskId := tid }
    if w.pool.poolMode_ = PoolMode.MODE_CACHED ∧
       castSizeT w.pool.idleThreadSize_ < q'.size ∧
       w.pool.curThreadSize_ < w.pool.threadSizeThreshHold_ then
      let newId := w.pool.nextThreadId
      ({ w with pool := { w.pool with
           taskQue_ := q'
           threads_ := w.pool.threads_ ++ [newId]
           curThreadSize_ := w.pool.curThreadSize_ + 1
           nextThreadId := newId + 1 } },
       SubmitResult.returnedFuture tid,
       [Ev.lockAcquired, Ev.enqueuedEv tid, Ev.registeredThread newId,
        Ev.lockReleased, Ev.startedThread newId])
    else
      ({ w with pool := { w.pool with taskQue_ := q' } },
       SubmitResult.returnedFuture tid,
       [Ev.lockAcquired, Ev.enqueuedEv tid, Ev.lockReleased])

/-- ThreadPool::submitTask (threadpool.h:49-53): priority 0. -/
def submitTask (w : World) (tid : Nat) : World × SubmitResult × List Ev :=
  submitTaskWithPriority w 0 tid

/-- What one iteration of the worker loop did. -/
inductive WorkerAction where
  | exitPoolStopped
  | exitIdleTimeout
  | keptWaiting
  | executedTask (tid : Nat)
  | crashedUncaught
deriving DecidableEq

/-- One full iteration of ThreadPool::threadFunc (threadpool.cpp:83-159) by
the worker with identity threadid.  If the queue is empty: when the pool has
stopped running, deregister and exit; in cached mode, when the 1 second wait
timed out (oracle waitTimedOut), the idle duration reached
THREAD_MAX_IDLE_TIME (oracle idleExceeded) and the pool is above its initial
size, reclaim the worker; otherwise keep waiting.  If the queue is nonempty:
take the top task, pop it, release the lock and run the task; the transient
idleThreadSize_ increment and decrement of one iteration cancel at this
granularity.  A failure escaping the task() call would end the thread
(crashedUncaught); packaged_task makes that branch unreachable. -/
def threadFunc (w : World) (threadid : Nat) (waitTimedOut idleExceeded : Bool) :
    World × WorkerAction :=
  if w.pool.taskQue_.size = 0 then
    if w.pool.isPoolRunning_ = false then
      ({ w with pool := { w.pool with
           threads_ := w.pool.threads_.erase threadid
           curThreadSize_ := w.pool.curThreadSize_ - 1 } },
       WorkerAction.exitPoolStopped)
    else if w.pool.poolMode_ = PoolMode.MODE_CACHED ∧ waitTimedOut = true ∧
            idleExceeded = true ∧ w.pool.initThreadSize_ < w.pool.curThreadSize_ then
      ({ w with pool := { w.pool with
           threads_ := w.pool.threads_.erase threadid
           curThreadSize_ := w.pool.curThreadSize_ - 1 } },
       WorkerAction.exitIdleTimeout)
    else (w, WorkerAction.keptWaiting)
  else
    let t := w.pool.taskQue_.top
    let q' := w.pool.taskQue_.pop
    let run := ConcreteTask.execute (w.payloadOf t.taskId)
    match run.2 with
    | some _ =>
        ({ w with pool := { w.pool with taskQue_ := q' } },
         WorkerAction.crashedUncaught)
    | none =>
        ({ w with pool := { w.pool with taskQue_ := q' }
                  handles := fun k => if k = t.taskId then some run.1 else w.handles k
                  executed := w.executed ++ [(t.taskId, ExecSite.workerThread threadid)] },
         WorkerAction.executedTask t.taskId)

/-! ### Operation traces -/

/-- One invocation of a public pool operation (or one worker-loop
iteration), the alphabet of the interleaved histories of the pool. -/
inductive Op where
  | opSetMode (mode : PoolMode)
  | opSetTaskQueMaxThreshHold (threshhold : Int)
  | opSetThreadSizeThreshHold (threshhold : Int)
  | opStart (initThreadSize : Int)
  | opShutdownBegin
  | opSubmit (priority : Int) (tid : Nat)
  | opWorkerStep (threadid : Nat) (waitTimedOut idleExceeded : Bool)
deriving DecidableEq

/-- Effect of one operation on the world (boundary results discarded). -/
def applyOp (w : World) : Op → World
  | Op.opSetMode m => { w with pool := setMode w.pool m }
  | Op.opSetTaskQueMaxThreshHold t => { w with pool := setTaskQueMaxThreshHold w.pool t }
  | Op.opSetThreadSizeThreshHold t => { w with pool := setThreadSizeThreshHold w.pool t }
  | Op.opStart n => { w with pool := start w.pool n }
  | Op.opShutdownBegin => { w with pool := shutdownBegin w.pool }
  | Op.opSubmit pr tid => (submitTaskWithPriority w pr tid).1
  | Op.opWorkerStep tid a b => (threadFunc w tid a b).1

/-- Effect of a sequence of operations, first operation first. -/
def applyTrace (w : World) (ops : List Op) : World := ops.foldl applyOp w

/-- Invariant carried by the sift-up pass over the first n slots with the
moving element at slot i: the parent-dominates-child property holds at every
edge except possibly the one entering slot i, and the parent of slot i
already dominates the children of slot i. -/
def UpInv (n : Nat) (f : Nat → myTask) (i : Nat) : Prop :=
  (∀ j, j < n → 0 < j → j ≠ i → (f j).weight_ ≤ (f (parent j)).weight_) ∧
  (0 < i → ∀ j, j < n → parent j = i → (f j).weight_ ≤ (f (parent i)).weight_)

/-- Invariant carried by the sift-down pass over the first n slots with the
moving element at slot i: the parent-dominates-child property holds at every
edge except possibly the ones leaving slot i, and the parent of slot i
dominates the children of slot i. -/
def DownInv (n : Nat) (f : Nat → myTask) (i : Nat) : Prop :=
  (∀ j, j < n → 0 < j → parent j ≠ i → (f j).weight_ ≤ (f (parent j)).weight_) ∧
  (0 < i → ∀ j, j < n → parent j = i → (f j).weight_ ≤ (f (parent i)).weight_)

/-- What execution of a payload stores into the shared state of its
packaged_task. -/
def runOutcome (c : Except Nat Int) : TaskOutcome :=
  match c with
  | Except.ok v => TaskOutcome.value v
  | Except.error e => TaskOutcome.error e

/-- The spawn decision of the cached-mode growth branch (threadpool.h:103-105)
evaluated on the post-enqueue queue. -/
def growCondition (w : World) (q' : priority_queue) : Prop :=
  w.pool.poolMode_ = PoolMode.MODE_CACHED ∧
  castSizeT w.pool.idleThreadSize_ < q'.size ∧
  w.pool.curThreadSize_ < w.pool.threadSizeThreshHold_

instance (w : World) (q' : priority_queue) : Decidable (growCondition w q') := by
  unfold growCondition; infer_instance

/-- Task id tid is absent from the world: its handle is pending, it is not
in the task queue, and no execution of it has been logged. -/
def untouched (tid : Nat) (w : World) : Prop :=
  w.handles tid = none ∧
  tid ∉ Multiset.map myTask.taskId w.pool.taskQue_.toMulti ∧
  tid ∉ w.executed.map Prod.fst

instance (tid : Nat) (w : World) : Decidable (untouched tid w) := by
  unfold untouched; infer_instance

/-- The operation is not a submission of task id tid. -/
def opAvoids (tid : Nat) : Op → Bool
  | Op.opSubmit _ t => decide (t ≠ tid)
  | _ => true

/-- Task id tid has its handle pinned at the value v and is neither in the
task queue nor in the execution log: the shape preserved by every operation
that does not resubmit tid (with v = none this is untouched; with
v = some brokenPromise it is the state of a discarded task). -/
def handlePinned (tid : Nat) (v : Option TaskOutcome) (w : World) : Prop :=
  w.handles tid = v ∧
  tid ∉ Multiset.map myTask.taskId w.pool.taskQue_.toMulti ∧
  tid ∉ w.executed.map Prod.fst

/-- Invariant checked after start: the recorded initial size is the one
passed to start, and while the pool runs, the thread count is bounded by the
ceiling in cached mode and pinned to the initial size in fixed mode. -/
def threadCountInv (n0 : Int) (w : World) : Prop :=
  w.pool.initThreadSize_ = n0 ∧
  (w.pool.isPoolRunning_ = true →
    (w.pool.poolMode_ = PoolMode.MODE_CACHED →
      w.pool.curThreadSize_ ≤ w.pool.threadSizeThreshHold_) ∧
    (w.pool.poolMode_ = PoolMode.MODE_FIXED → w.pool.curThreadSize_ = n0))

/-- The operation is not a (re)start of the pool. -/
def opNotStart : Op → Bool
  | Op.opStart _ => false
  | _ => true

/-- The operation does not configure a queue capacity outside the
nonnegative int range (a negative capacity would be converted to a huge
size_t by the cast at threadpool.h:76 and act as no bound at all). -/
def capOK : Op → Bool
  | Op.opSetTaskQueMaxThreshHold t => decide (0 ≤ t ∧ t ≤ TASK_MAX_THRESHHOLD)
  | _ => true

/-- Modelled from the spec: getCurrentThreadCount() is declared at
threadpool.h:44 but has no definition under src/; per spec section 6 the
introspection accessors are point-in-time snapshot reads of the pool
runtime state, so this one returns the current-thread-count counter. -/
def getCurrentThreadCount (s : ThreadPoolState) : Int := s.curThreadSize_

/-- An environment in which every payload returns 0. -/
def okEnv : Nat → Except Nat Int := fun _ => Except.ok 0

/-- An environment in which the payload of task id 33 raises failure code 7
and every other payload returns 5. -/
def errEnv : Nat → Except Nat Int :=
  fun k => if k = 33 then Except.error 7 else Except.ok 5

/-- A running pool configured with queue capacity 0 (so the queue stays full
through the bounded wait of every submission) and the given rejection
policy. -/
def fullQueueWorld (p : RejectionPolicy) : World :=
  { pool := { threadPoolCtor with
      isPoolRunning_ := true
      taskQueMaxThreshHold_ := 0
      rejectionPolicy_ := p }
    payloadOf := errEnv
    handles := fun _ => none
    executed := [] }

/-- A running cached-mode pool with no worker yet and default thresholds. -/
def cachedWorld : World :=
  { pool := { threadPoolCtor with
      isPoolRunning_ := true
      poolMode_ := PoolMode.MODE_CACHED }
    payloadOf := okEnv
    handles := fun _ => none
    executed := [] }

/-! ### Arithmetic of the implicit binary tree on slot indices -/

theorem parent_lt {i : Nat} (h : 0 < i) : parent i < i := by
  unfold parent; omega

theorem child_cases {i j : Nat} (hj : 0 < j) (hp : parent j = i) :
    j = 2*i+1 ∨ j = 2*i+2 := by
  unfold parent at hp; omega

theorem lt_of_parent_eq {i j : Nat} (hi : 0 < i) (hp : parent j = i) : i < j := by
  unfold parent at hp; omega

theorem myTask_lt_true {a b : myTask} : myTask.lt a b = true ↔ a.weight_ < b.weight_ := by
  simp [myTask.lt]

theorem myTask_lt_false {a b : myTask} : myTask.lt a b = false ↔ b.weight_ ≤ a.weight_ := by
  simp [myTask.lt]

theorem hswapF_fst (f : Nat → myTask) (i j : Nat) : hswapF f i j i = f j := by
  simp [hswapF]

theorem hswapF_snd (f : Nat → myTask) (i j : Nat) (hne : j ≠ i) : hswapF f i j j = f i := by
  simp [hswapF, hne]

theorem hswapF_other (f : Nat → myTask) (i j k : Nat) (hki : k ≠ i) (hkj : k ≠ j) :
    hswapF f i j k = f k := by
  simp [hswapF, hki, hkj]

/-! ### The sift-up pass restores the heap invariant -/

theorem UpInv_swap {n : Nat} {f : Nat → myTask} {i : Nat} (hi0 : 0 < i) (hin : i < n)
    (hinv : UpInv n f i) (hlt : myTask.lt (f (parent i)) (f i) = true) :
    UpInv n (hswapF f i (parent i)) (parent i) := by
  obtain ⟨h1, h2⟩ := hinv
  have hpi : parent i < i := parent_lt hi0
  have hlt' : (f (parent i)).weight_ < (f i).weight_ := myTask_lt_true.mp hlt
  have gi : hswapF f i (parent i) i = f (parent i) := hswapF_fst f i (parent i)
  have gp : hswapF f i (parent i) (parent i) = f i := hswapF_snd f i (parent i) (by omega)
  constructor
  · intro j hj hj0 hjp
    by_cases hji : j = i
    · subst hji
      rw [gi, gp]
      exact le_of_lt hlt'
    · by_cases hpj : parent j = i
      · have hij : i < j := lt_of_parent_eq hi0 hpj
        rw [hswapF_other f i (parent i) j hji (by omega), hpj, gi]
        exact h2 hi0 j hj hpj
      · have hjp' : j ≠ parent i := hjp
        by_cases hpjp : parent j = parent i
        · rw [hswapF_other f i (parent i) j hji hjp', hpjp, gp]
          have step1 : (f j).weight_ ≤ (f (parent j)).weight_ := h1 j hj hj0 hji
          rw [hpjp] at step1
          exact le_trans step1 (le_of_lt hlt')
        · rw [hswapF_other f i (parent i) j hji hjp',
              hswapF_other f i (parent i) (parent j) hpj hpjp]
          exact h1 j hj hj0 hji
  · intro hp0 j hj hpj
    have hpp : parent (parent i) < parent i := parent_lt hp0
    have gpp : hswapF f i (parent i) (parent (parent i)) = f (parent (parent i)) :=
      hswapF_other f i (parent i) (parent (parent i)) (by omega) (by omega)
    rw [gpp]
    by_cases hji : j = i
    · subst hji
      rw [gi]
      exact h1 (parent j) (by omega) hp0 (by omega)
    · have hjpi : parent i < j := lt_of_parent_eq hp0 hpj
      have hj0 : 0 < j := by omega
      rw [hswapF_other f i (parent i) j hji (by omega)]
      have step1 : (f j).weight_ ≤ (f (parent j)).weight_ := h1 j hj hj0 hji
      rw [hpj] at step1
      exact le_trans step1 (h1 (parent i) (by omega) hp0 (by omega))

theorem siftUpFuel_isHeap {n : Nat} :
    ∀ (fuel : Nat) (f : Nat → myTask) (i : Nat), i ≤ fuel → i < n → UpInv n f i →
    ∀ j, j < n → 0 < j →
      (siftUpFuel fuel f i j).weight_ ≤ (siftUpFuel fuel f i (parent j)).weight_ := by
  intro fuel
  induction fuel with
  | zero =>
    intro f i hif _ hinv j hj hj0
    have hi0 : i = 0 := Nat.le_zero.mp hif
    subst hi0
    simpa [siftUpFuel] using hinv.1 j hj hj0 (by omega)
  | succ fuel ih =>
    intro f i hif hin hinv j hj hj0
    by_cases hi0 : i = 0
    · subst hi0
      simpa [siftUpFuel] using hinv.1 j hj hj0 (by omega)
    · have hi0' : 0 < i := by omega
      by_cases hsw : myTask.lt (f (parent i)) (f i) = true
      · have hred : siftUpFuel (fuel+1) f i = siftUpFuel fuel (hswapF f i (parent i)) (parent i) := by
          simp [siftUpFuel, hi0, hsw]
        rw [hred]
        have hpi : parent i < i := parent_lt hi0'
        exact ih (hswapF f i (parent i)) (parent i) (by omega) (by omega)
          (UpInv_swap hi0' hin hinv hsw) j hj hj0
      · have hred : siftUpFuel (fuel+1) f i = f := by
          simp [siftUpFuel, hi0, hsw]
        rw [hred]
        by_cases hji : j = i
        · subst hji
          have := myTask_lt_false.mp (by simpa using hsw)
          exact this
        · exact hinv.1 j hj hj0 hji

theorem isHeap_push (q : priority_queue) (t : myTask) (h : q.IsHeap) :
    (q.push t).IsHeap := by
  intro j hj hj0
  simp only [priority_queue.push, siftUp] at hj ⊢
  apply siftUpFuel_isHeap q.size (hupd q.elems q.size t) q.size le_rfl (by omega) ?_ j hj hj0
  constructor
  · intro k hk hk0 hkne
    have hkn : k < q.size := by omega
    have hpk : parent k ≠ q.size := by have := parent_lt hk0; omega
    simp only [hupd, if_neg hkne, if_neg hpk]
    exact h k hkn hk0
  · intro hq0 k hk hpk
    rcases Nat.eq_zero_or_pos k with hk0 | hk0
    · exfalso; subst hk0; unfold parent at hpk; omega
    · have := child_cases hk0 hpk
      omega

/-! ### The sift-down pass restores the heap invariant -/

theorem DownInv_swap {n : Nat} {f : Nat → myTask} {i m : Nat}
    (hinv : DownInv n f i) (him : i < m) (hmn : m < n) (hpm : parent m = i)
    (hlt : (f i).weight_ < (f m).weight_)
    (hother : ∀ c, c < n → parent c = i → c ≠ m → (f c).weight_ ≤ (f m).weight_) :
    DownInv n (hswapF f i m) m := by
  obtain ⟨h1, h2⟩ := hinv
  have gi : hswapF f i m i = f m := hswapF_fst f i m
  have gm : hswapF f i m m = f i := hswapF_snd f i m (by omega)
  constructor
  · intro j hj hj0 hjpm
    by_cases hjm : j = m
    · subst hjm
      rw [hpm, gm, gi]
      exact le_of_lt hlt
    · by_cases hji : j = i
      · subst hji
        have hj0' : 0 < j := hj0
        have hpij : parent j < j := parent_lt hj0
        rw [gi, hswapF_other f j m (parent j) (by omega) (by omega)]
        exact h2 hj0 m hmn hpm
      · by_cases hpji : parent j = i
        · rw [hswapF_other f i m j hji hjm, hpji, gi]
          exact hother j hj hpji hjm
        · rw [hswapF_other f i m j hji hjm,
              hswapF_other f i m (parent j) hpji hjpm]
          exact h1 j hj hj0 hpji
  · intro _ j hj hpj
    have hj0 : 0 < j := by
      rcases Nat.eq_zero_or_pos j with h | h
      · exfalso; subst h; unfold parent at hpj; omega
      · exact h
    have hmj : m < j := lt_of_parent_eq (by omega) hpj
    rw [hpm, gi, hswapF_other f i m j (by omega) (by omega)]
    have step1 : (f j).weight_ ≤ (f (parent j)).weight_ := h1 j hj hj0 (by omega)
    rw [hpj] at step1
    exact step1

theorem siftDownFuel_isHeap {n : Nat} :
    ∀ (fuel : Nat) (f : Nat → myTask) (i : Nat), n - i ≤ fuel → DownInv n f i →
    ∀ j, j < n → 0 < j →
      (siftDownFuel fuel n f i j).weight_ ≤ (siftDownFuel fuel n f i (parent j)).weight_ := by
  intro fuel
  induction fuel with
  | zero =>
    intro f i hfuel hinv j hj hj0
    simp only [siftDownFuel]
    exact hinv.1 j hj hj0 (by have := parent_lt hj0; omega)
  | succ fuel ih =>
    intro f i hfuel hinv j hj hj0
    by_cases hc1 : 2*i+1 < n ∧ myTask.lt (f i) (f (2*i+1)) = true
    · by_cases hc2 : 2*i+2 < n ∧ myTask.lt (f (2*i+1)) (f (2*i+2)) = true
      · -- m = 2*i+2, coming through m1 = 2*i+1
        have hred : siftDownFuel (fuel+1) n f i =
            siftDownFuel fuel n (hswapF f i (2*i+2)) (2*i+2) := by
          simp only [siftDownFuel, if_pos hc1, if_pos hc2]
          rw [if_neg (by omega)]
        rw [hred]
        refine ih (hswapF f i (2*i+2)) (2*i+2) (by omega) ?_ j hj hj0
        apply DownInv_swap hinv (by omega) hc2.1 (by unfold parent; omega)
        · exact lt_trans (myTask_lt_true.mp hc1.2) (myTask_lt_true.mp hc2.2)
        · intro c hc hpc hcm
          rcases Nat.eq_zero_or_pos c with hc0 | hc0
          · subst hc0
            have hi0 : i = 0 := by unfold parent at hpc; omega
            subst hi0
            exact le_of_lt (lt_trans (myTask_lt_true.mp hc1.2) (myTask_lt_true.mp hc2.2))
          · rcases child_cases hc0 hpc with hcl | hcr
            · subst hcl
              exact le_of_lt (myTask_lt_true.mp hc2.2)
            · omega
      · -- m = m1 = 2*i+1
        have hred : siftDownFuel (fuel+1) n f i =
            siftDownFuel fuel n (hswapF f i (2*i+1)) (2*i+1) := by
          simp only [siftDownFuel, if_pos hc1, if_neg hc2]
          rw [if_neg (by omega)]
        rw [hred]
        refine ih (hswapF f i (2*i+1)) (2*i+1) (by omega) ?_ j hj hj0
        apply DownInv_swap hinv (by omega) hc1.1 (by unfold parent; omega)
        · exact myTask_lt_true.mp hc1.2
        · intro c hc hpc hcm
          rcases Nat.eq_zero_or_pos c with hc0 | hc0
          · subst hc0
            have hi0 : i = 0 := by unfold parent at hpc; omega
            subst hi0
            exact le_of_lt (myTask_lt_true.mp hc1.2)
          · rcases child_cases hc0 hpc with hcl | hcr
            · omega
            · subst hcr
              have hnot : ¬ myTask.lt (f (2*i+1)) (f (2*i+2)) = true := fun hx => hc2 ⟨hc, hx⟩
              exact myTask_lt_false.mp (by simpa using hnot)
    · by_cases hc2 : 2*i+2 < n ∧ myTask.lt (f i) (f (2*i+2)) = true
      · -- m1 = i, m = 2*i+2
        have hred : siftDownFuel (fuel+1) n f i =
            siftDownFuel fuel n (hswapF f i (2*i+2)) (2*i+2) := by
          simp only [siftDownFuel, if_neg hc1, if_pos hc2]
          rw [if_neg (by omega)]
        rw [hred]
        refine ih (hswapF f i (2*i+2)) (2*i+2) (by omega) ?_ j hj hj0
        apply DownInv_swap hinv (by omega) hc2.1 (by unfold parent; omega)
        · exact myTask_lt_true.mp hc2.2
        · intro c hc hpc hcm
          rcases Nat.eq_zero_or_pos c with hc0 | hc0
          · subst hc0
            have hi0 : i = 0 := by unfold parent at hpc; omega
            subst hi0
            exact le_of_lt (myTask_lt_true.mp hc2.2)
          · rcases child_cases hc0 hpc with hcl | hcr
            · subst hcl
              have hnot : ¬ myTask.lt (f i) (f (2*i+1)) = true := fun hx => hc1 ⟨hc, hx⟩
              have hle : (f (2*i+1)).weight_ ≤ (f i).weight_ :=
                myTask_lt_false.mp (by simpa using hnot)
              exact le_trans hle (le_of_lt (myTask_lt_true.mp hc2.2))
            · omega
      · -- m1 = i, m = i: no swap
        have hred : siftDownFuel (fuel+1) n f i = f := by
          simp only [siftDownFuel, if_neg hc1, if_neg hc2]
          simp
        rw [hred]
        by_cases hpj : parent j = i
        · rw [hpj]
          rcases child_cases hj0 hpj with hcl | hcr
          · subst hcl
            have : ¬ myTask.lt (f i) (f (2*i+1)) = true := fun hx => hc1 ⟨hj, hx⟩
            exact myTask_lt_false.mp (by simpa using this)
          · subst hcr
            have : ¬ myTask.lt (f i) (f (2*i+2)) = true := fun hx => hc2 ⟨hj, hx⟩
            exact myTask_lt_false.mp (by simpa using this)
        · exact hinv.1 j hj hj0 hpj

theorem isHeap_pop (q : priority_queue) (h : q.IsHeap) : (q.pop).IsHeap := by
  intro j hj hj0
  by_cases hq : q.size = 0
  · exact absurd hj (by simp [priority_queue.pop, hq])
  · simp only [priority_queue.pop, if_neg hq, siftDown] at hj ⊢
    apply siftDownFuel_isHeap (q.size - 1)
      (hupd q.elems 0 (q.elems (q.size - 1))) 0 (by omega) ?_ j hj hj0
    constructor
    · intro k hk hk0 hpk
      simp only [hupd, if_neg (by omega : k ≠ 0), if_neg hpk]
      exact h k (by omega) hk0
    · intro h0
      exact absurd h0 (by omega)

/-! ### The top of a heap has the maximum weight -/

theorem isHeap_le_top (q : priority_queue) (h : q.IsHeap) :
    ∀ i, i < q.size → (q.elems i).weight_ ≤ (q.top).weight_ := by
  intro i
  induction i using Nat.strong_induction_on with
  | _ i ih =>
    intro hi
    by_cases h0 : i = 0
    · subst h0; exact le_refl _
    · have hi0 : 0 < i := by omega
      have hpi : parent i < i := parent_lt hi0
      exact le_trans (h i hi hi0) (ih (parent i) hpi (by omega))

/-! ### Push and pop preserve the multiset of stored elements -/

theorem hswapF_eq_comp (f : Nat → myTask) (i j : Nat) :
    hswapF f i j = f ∘ (Equiv.swap i j) := by
  funext k
  simp [hswapF, Equiv.swap_apply_def, apply_ite f]

theorem map_swap_range {n i j : Nat} (hi : i < n) (hj : j < n) :
    (Multiset.range n).map (Equiv.swap i j) = Multiset.range n := by
  apply Multiset.eq_of_le_of_card_le
  · rw [Multiset.le_iff_subset ((Multiset.nodup_range n).map (Equiv.injective _))]
    intro a ha
    rw [Multiset.mem_map] at ha
    obtain ⟨k, hk, rfl⟩ := ha
    rw [Multiset.mem_range] at hk ⊢
    rw [Equiv.swap_apply_def]
    split_ifs <;> omega
  · simp

theorem map_range_hswapF (f : Nat → myTask) {n i j : Nat} (hi : i < n) (hj : j < n) :
    (Multiset.range n).map (hswapF f i j) = (Multiset.range n).map f := by
  rw [hswapF_eq_comp, ← Multiset.map_map, map_swap_range hi hj]

theorem siftUpFuel_toMulti {n : Nat} :
    ∀ (fuel : Nat) (f : Nat → myTask) (i : Nat), i < n →
      (Multiset.range n).map (siftUpFuel fuel f i) = (Multiset.range n).map f := by
  intro fuel
  induction fuel with
  | zero => intro f i _; simp [siftUpFuel]
  | succ fuel ih =>
    intro f i hin
    by_cases h0 : i = 0
    · simp [siftUpFuel, h0]
    · by_cases hsw : myTask.lt (f (parent i)) (f i) = true
      · have hpi : parent i < i := parent_lt (by omega)
        have hred : siftUpFuel (fuel+1) f i = siftUpFuel fuel (hswapF f i (parent i)) (parent i) := by
          simp [siftUpFuel, h0, hsw]
        rw [hred, ih _ _ (by omega)]
        exact map_range_hswapF f hin (by omega)
      · simp [siftUpFuel, h0, hsw]

theorem siftDownFuel_toMulti {n : Nat} :
    ∀ (fuel : Nat) (f : Nat → myTask) (i : Nat),
      (Multiset.range n).map (siftDownFuel fuel n f i) = (Multiset.range n).map f := by
  intro fuel
  induction fuel with
  | zero => intro f i; simp [siftDownFuel]
  | succ fuel ih =>
    intro f i
    by_cases hc1 : 2*i+1 < n ∧ myTask.lt (f i) (f (2*i+1)) = true
    · by_cases hc2 : 2*i+2 < n ∧ myTask.lt (f (2*i+1)) (f (2*i+2)) = true
      · have hred : siftDownFuel (fuel+1) n f i =
            siftDownFuel fuel n (hswapF f i (2*i+2)) (2*i+2) := by
          simp only [siftDownFuel, if_pos hc1, if_pos hc2]
          rw [if_neg (by omega)]
        rw [hred, ih _ _]
        exact map_range_hswapF f (by omega) hc2.1
      · have hred : siftDownFuel (fuel+1) n f i =
            siftDownFuel fuel n (hswapF f i (2*i+1)) (2*i+1) := by
          simp only [siftDownFuel, if_pos hc1, if_neg hc2]
          rw [if_neg (by omega)]
        rw [hred, ih _ _]
        exact map_range_hswapF f (by omega) hc1.1
    · by_cases hc2 : 2*i+2 < n ∧ myTask.lt (f i) (f (2*i+2)) = true
      · have hred : siftDownFuel (fuel+1) n f i =
            siftDownFuel fuel n (hswapF f i (2*i+2)) (2*i+2) := by
          simp only [siftDownFuel, if_neg hc1, if_pos hc2]
          rw [if_neg (by omega)]
        rw [hred, ih _ _]
        exact map_range_hswapF f (by omega) hc2.1
      · have hred : siftDownFuel (fuel+1) n f i = f := by
          simp only [siftDownFuel, if_neg hc1, if_neg hc2]
          simp
        rw [hred]

theorem push_toMulti (q : priority_queue) (t : myTask) :
    (q.push t).toMulti = t ::ₘ q.toMulti := by
  show (Multiset.range (q.size+1)).map (siftUp (hupd q.elems q.size t) q.size) = _
  rw [siftUp, siftUpFuel_toMulti q.size (hupd q.elems q.size t) q.size (by omega)]
  rw [Multiset.range_succ, Multiset.map_cons]
  congr 1
  · simp [hupd]
  · apply Multiset.map_congr rfl
    intro k hk
    rw [Multiset.mem_range] at hk
    simp only [hupd, if_neg (by omega : k ≠ q.size)]

theorem map_range_hupd (f : Nat → myTask) (v : myTask) :
    ∀ (n k : Nat), k < n →
      (Multiset.range n).map (hupd f k v) + {f k} = (Multiset.range n).map f + {v} := by
  intro n
  induction n with
  | zero => intro k hk; omega
  | succ n ih =>
    intro k hk
    rw [Multiset.range_succ, Multiset.map_cons, Multiset.map_cons]
    by_cases hkn : k = n
    · subst hkn
      have heq : (Multiset.range k).map (hupd f k v) = (Multiset.range k).map f := by
        apply Multiset.map_congr rfl
        intro x hx
        rw [Multiset.mem_range] at hx
        simp only [hupd, if_neg (by omega : x ≠ k)]
      rw [heq]
      simp only [hupd, if_pos rfl]
      rw [Multiset.cons_add, Multiset.cons_add, add_comm _ ({f k} : Multiset myTask),
          add_comm _ ({v} : Multiset myTask), Multiset.singleton_add, Multiset.singleton_add,
          Multiset.cons_swap]
      simp
    · have hn : hupd f k v n = f n := by simp only [hupd, if_neg (by omega : n ≠ k)]
      rw [hn, Multiset.cons_add, Multiset.cons_add, ih k (by omega)]

theorem pop_toMulti (q : priority_queue) (hq : q.size ≠ 0) :
    q.toMulti = q.top ::ₘ (q.pop).toMulti := by
  rcases Nat.exists_eq_succ_of_ne_zero hq with ⟨n, hn⟩
  simp only [priority_queue.pop, if_neg hq, priority_queue.toMulti, priority_queue.top, siftDown]
  rw [siftDownFuel_toMulti]
  rcases Nat.eq_zero_or_pos (q.size - 1) with h0 | h0
  · rw [hn] at h0 ⊢
    have : n = 0 := by omega
    subst this
    simp
  · have key := map_range_hupd q.elems (q.elems (q.size - 1)) (q.size - 1) 0 h0
    have lhs : (Multiset.range q.size).map q.elems
        = (Multiset.range (q.size - 1)).map q.elems + {q.elems (q.size - 1)} := by
      rw [hn]
      rw [Multiset.range_succ, Multiset.map_cons, ← Multiset.singleton_add, add_comm]
      simp [Nat.succ_sub_one]
    rw [lhs, ← key, add_comm, Multiset.singleton_add]

theorem push_size (q : priority_queue) (t : myTask) : (q.push t).size = q.size + 1 := rfl

theorem pop_size (q : priority_queue) (hq : q.size ≠ 0) : (q.pop).size = q.size - 1 := by
  simp [priority_queue.pop, hq]

/-! ### Branch characterizations of the submission protocol -/

theorem execute_eq (c : Except Nat Int) : ConcreteTask.execute c = (runOutcome c, none) := by
  cases c <;> rfl

/-- A payload failure never escapes the packaged_task invocation. -/
theorem execute_snd_none (c : Except Nat Int) : (ConcreteTask.execute c).2 = none := by
  cases c <;> rfl

theorem submit_notRunning (w : World) (pr : Int) (tid : Nat)
    (h : w.pool.isPoolRunning_ = false) :
    submitTaskWithPriority w pr tid = (w, SubmitResult.threw PoolError.poolNotAccepting, []) := by
  simp [submitTaskWithPriority, h]

theorem submit_full_abort (w : World) (pr : Int) (tid : Nat)
    (hrun : w.pool.isPoolRunning_ = true)
    (hfull : ¬ (w.pool.taskQue_.size < castSizeT w.pool.taskQueMaxThreshHold_))
    (hpol : w.pool.rejectionPolicy_ = RejectionPolicy.Abort) :
    submitTaskWithPriority w pr tid =
      (w, SubmitResult.threw PoolError.queueFull, [Ev.lockAcquired, Ev.lockReleased]) := by
  simp [submitTaskWithPriority, hrun, hfull, hpol]

theorem submit_full_discard (w : World) (pr : Int) (tid : Nat)
    (hrun : w.pool.isPoolRunning_ = true)
    (hfull : ¬ (w.pool.taskQue_.size < castSizeT w.pool.taskQueMaxThreshHold_))
    (hpol : w.pool.rejectionPolicy_ = RejectionPolicy.Discard) :
    submitTaskWithPriority w pr tid =
      ({ w with handles := fun k => if k = tid then some TaskOutcome.brokenPromise
                           else w.handles k },
       SubmitResult.returnedFuture tid, [Ev.lockAcquired, Ev.lockReleased]) := by
  simp [submitTaskWithPriority, hrun, hfull, hpol]

theorem submit_full_callerRuns (w : World) (pr : Int) (tid : Nat)
    (hrun : w.pool.isPoolRunning_ = true)
    (hfull : ¬ (w.pool.taskQue_.size < castSizeT w.pool.taskQueMaxThreshHold_))
    (hpol : w.pool.rejectionPolicy_ = RejectionPolicy.CallerRuns) :
    submitTaskWithPriority w pr tid =
      ({ w with
          handles := fun k => if k = tid then some (runOutcome (w.payloadOf tid)) else w.handles k
          executed := w.executed ++ [(tid, ExecSite.callerThread)] },
       SubmitResult.returnedFuture tid,
       [Ev.lockAcquired, Ev.lockReleased, Ev.executedInCaller tid]) := by
  simp only [submitTaskWithPriority, hrun, hfull, hpol]
  cases hc : w.payloadOf tid <;>
    simp [ConcreteTask.execute, packagedTaskInvoke, runOutcome, hc]

theorem submit_enqueue_grow (w : World) (pr : Int) (tid : Nat)
    (hrun : w.pool.isPoolRunning_ = true)
    (hspace : w.pool.taskQue_.size < castSizeT w.pool.taskQueMaxThreshHold_)
    (hgrow : growCondition w (w.pool.taskQue_.push { weight_ := pr, taskId := tid })) :
    submitTaskWithPriority w pr tid =
      ({ w with pool := { w.pool with
           taskQue_ := w.pool.taskQue_.push { weight_ := pr, taskId := tid }
           threads_ := w.pool.threads_ ++ [w.pool.nextThreadId]
           curThreadSize_ := w.pool.curThreadSize_ + 1
           nextThreadId := w.pool.nextThreadId + 1 } },
       SubmitResult.returnedFuture tid,
       [Ev.lockAcquired, Ev.enqueuedEv tid, Ev.registeredThread w.pool.nextThreadId,
        Ev.lockReleased, Ev.startedThread w.pool.nextThreadId]) := by
  unfold growCondition at hgrow
  simp [submitTaskWithPriority, hrun, hspace, hgrow.1, hgrow.2.1, hgrow.2.2]

theorem submit_enqueue_nogrow (w : World) (pr : Int) (tid : Nat)
    (hrun : w.pool.isPoolRunning_ = true)
    (hspace : w.pool.taskQue_.size < castSizeT w.pool.taskQueMaxThreshHold_)
    (hngrow : ¬ growCondition w (w.pool.taskQue_.push { weight_ := pr, taskId := tid })) :
    submitTaskWithPriority w pr tid =
      ({ w with pool := { w.pool with
           taskQue_ := w.pool.taskQue_.push { weight_ := pr, taskId := tid } } },
       SubmitResult.returnedFuture tid,
       [Ev.lockAcquired, Ev.enqueuedEv tid, Ev.lockReleased]) := by
  unfold growCondition at hngrow
  simp [submitTaskWithPriority, hrun, hspace, hngrow]

/-! ### Branch characterizations of the worker loop iteration -/

theorem threadFunc_execute (w : World) (threadid : Nat) (a b : Bool)
    (hne : w.pool.taskQue_.size ≠ 0) :
    threadFunc w threadid a b =
      ({ w with
          pool := { w.pool with taskQue_ := w.pool.taskQue_.pop }
          handles := fun k => if k = (w.pool.taskQue_.top).taskId
            then some (runOutcome (w.payloadOf (w.pool.taskQue_.top).taskId))
            else w.handles k
          executed := w.executed ++ [((w.pool.taskQue_.top).taskId, ExecSite.workerThread threadid)] },
       WorkerAction.executedTask (w.pool.taskQue_.top).taskId) := by
  simp only [threadFunc, if_neg hne]
  cases hc : w.payloadOf (w.pool.taskQue_.top).taskId <;>
    simp [ConcreteTask.execute, packagedTaskInvoke, runOutcome, hc]

theorem threadFunc_exitPoolStopped (w : World) (threadid : Nat) (a b : Bool)
    (hq : w.pool.taskQue_.size = 0) (hrun : w.pool.isPoolRunning_ = false) :
    threadFunc w threadid a b =
      ({ w with pool := { w.pool with
           threads_ := w.pool.threads_.erase threadid
           curThreadSize_ := w.pool.curThreadSize_ - 1 } },
       WorkerAction.exitPoolStopped) := by
  simp [threadFunc, hq, hrun]

theorem threadFunc_exitIdleTimeout (w : World) (threadid : Nat) (a b : Bool)
    (hq : w.pool.taskQue_.size = 0) (hrun : w.pool.isPoolRunning_ = true)
    (hcond : w.pool.poolMode_ = PoolMode.MODE_CACHED ∧ a = true ∧ b = true ∧
             w.pool.initThreadSize_ < w.pool.curThreadSize_) :
    threadFunc w threadid a b =
      ({ w with pool := { w.pool with
           threads_ := w.pool.threads_.erase threadid
           curThreadSize_ := w.pool.curThreadSize_ - 1 } },
       WorkerAction.exitIdleTimeout) := by
  simp [threadFunc, hq, hrun, hcond.1, hcond.2.1, hcond.2.2.1, hcond.2.2.2]

theorem threadFunc_keptWaiting (w : World) (threadid : Nat) (a b : Bool)
    (hq : w.pool.taskQue_.size = 0) (hrun : w.pool.isPoolRunning_ = true)
    (hcond : ¬ (w.pool.poolMode_ = PoolMode.MODE_CACHED ∧ a = true ∧ b = true ∧
             w.pool.initThreadSize_ < w.pool.curThreadSize_)) :
    threadFunc w threadid a b = (w, WorkerAction.keptWaiting) := by
  simp only [threadFunc, if_pos hq]
  rw [if_neg (by simp [hrun]), if_neg hcond]

/-! ### Every reachable queue satisfies the heap invariant -/

theorem isHeap_emptyQueue : emptyQueue.IsHeap := by
  intro i hi
  simp [emptyQueue] at hi

theorem isHeap_applyOp (w : World) (op : Op) (h : w.pool.taskQue_.IsHeap) :
    (applyOp w op).pool.taskQue_.IsHeap := by
  cases op with
  | opSetMode m =>
    simp only [applyOp, setMode]
    split_ifs <;> exact h
  | opSetTaskQueMaxThreshHold t =>
    simp only [applyOp, setTaskQueMaxThreshHold]
    split_ifs <;> exact h
  | opSetThreadSizeThreshHold t =>
    simp only [applyOp, setThreadSizeThreshHold]
    split_ifs <;> exact h
  | opStart n =>
    exact h
  | opShutdownBegin =>
    exact h
  | opSubmit pr tid =>
    by_cases hrun : w.pool.isPoolRunning_ = true
    · by_cases hspace : w.pool.taskQue_.size < castSizeT w.pool.taskQueMaxThreshHold_
      · by_cases hgrow : growCondition w (w.pool.taskQue_.push { weight_ := pr, taskId := tid })
        · simp only [applyOp, submit_enqueue_grow w pr tid hrun hspace hgrow]
          exact isHeap_push _ _ h
        · simp only [applyOp, submit_enqueue_nogrow w pr tid hrun hspace hgrow]
          exact isHeap_push _ _ h
      · rcases hpol : w.pool.rejectionPolicy_ with _ | _ | _
        · simp only [applyOp, submit_full_abort w pr tid hrun hspace hpol]; exact h
        · simp only [applyOp, submit_full_discard w pr tid hrun hspace hpol]; exact h
        · simp only [applyOp, submit_full_callerRuns w pr tid hrun hspace hpol]; exact h
    · have hrun' : w.pool.isPoolRunning_ = false := by
        cases hx : w.pool.isPoolRunning_
        · rfl
        · exact absurd hx hrun
      simp only [applyOp, submit_notRunning w pr tid hrun']
      exact h
  | opWorkerStep tid a b =>
    by_cases hq : w.pool.taskQue_.size = 0
    · by_cases hrun : w.pool.isPoolRunning_ = true
      · by_cases hcond : w.pool.poolMode_ = PoolMode.MODE_CACHED ∧ a = true ∧ b = true ∧
            w.pool.initThreadSize_ < w.pool.curThreadSize_
        · simp only [applyOp, threadFunc_exitIdleTimeout w tid a b hq hrun hcond]; exact h
        · simp only [applyOp, threadFunc_keptWaiting w tid a b hq hrun hcond]; exact h
      · have hrun' : w.pool.isPoolRunning_ = false := by
          cases hx : w.pool.isPoolRunning_
          · rfl
          · exact absurd hx hrun
        simp only [applyOp, threadFunc_exitPoolStopped w tid a b hq hrun']; exact h
    · simp only [applyOp, threadFunc_execute w tid a b hq]
      exact isHeap_pop _ h

theorem isHeap_applyTrace (w : World) (ops : List Op) (h : w.pool.taskQue_.IsHeap) :
    (applyTrace w ops).pool.taskQue_.IsHeap := by
  induction ops generalizing w with
  | nil => exact h
  | cons op ops ih =>
    exact ih (applyOp w op) (isHeap_applyOp w op h)

theorem isHeap_reachable (env : Nat → Except Nat Int) (ops : List Op) :
    (applyTrace (initWorld env) ops).pool.taskQue_.IsHeap :=
  isHeap_applyTrace _ ops isHeap_emptyQueue

/-! ### A task that is never submitted is never enqueued, run or fulfilled -/

theorem handlePinned_applyOp (tid : Nat) (v : Option TaskOutcome) (w : World) (op : Op)
    (h : handlePinned tid v w) (hav : opAvoids tid op = true) :
    handlePinned tid v (applyOp w op) := by
  obtain ⟨h1, h2, h3⟩ := h
  cases op with
  | opSetMode m =>
    simp only [applyOp, setMode]
    split_ifs <;> exact ⟨h1, h2, h3⟩
  | opSetTaskQueMaxThreshHold t =>
    simp only [applyOp, setTaskQueMaxThreshHold]
    split_ifs <;> exact ⟨h1, h2, h3⟩
  | opSetThreadSizeThreshHold t =>
    simp only [applyOp, setThreadSizeThreshHold]
    split_ifs <;> exact ⟨h1, h2, h3⟩
  | opStart n => exact ⟨h1, h2, h3⟩
  | opShutdownBegin => exact ⟨h1, h2, h3⟩
  | opSubmit pr t =>
    have htne : t ≠ tid := by simpa [opAvoids] using hav
    by_cases hrun : w.pool.isPoolRunning_ = true
    · by_cases hspace : w.pool.taskQue_.size < castSizeT w.pool.taskQueMaxThreshHold_
      · have hpushmem :
            tid ∉ Multiset.map myTask.taskId
              (w.pool.taskQue_.push { weight_ := pr, taskId := t }).toMulti := by
          rw [push_toMulti, Multiset.map_cons]
          simp only [Multiset.mem_cons, not_or]
          exact ⟨fun hx => htne (by simpa using hx.symm), h2⟩
        by_cases hgrow : growCondition w (w.pool.taskQue_.push { weight_ := pr, taskId := t })
        · simp only [applyOp, submit_enqueue_grow w pr t hrun hspace hgrow]
          exact ⟨h1, hpushmem, h3⟩
        · simp only [applyOp, submit_enqueue_nogrow w pr t hrun hspace hgrow]
          exact ⟨h1, hpushmem, h3⟩
      · rcases hpol : w.pool.rejectionPolicy_ with _ | _ | _
        · simp only [applyOp, submit_full_abort w pr t hrun hspace hpol]
          exact ⟨h1, h2, h3⟩
        · simp only [applyOp, submit_full_discard w pr t hrun hspace hpol]
          refine ⟨?_, h2, h3⟩
          simp only [if_neg (by omega : ¬ tid = t)]
          exact h1
        · simp only [applyOp, submit_full_callerRuns w pr t hrun hspace hpol]
          refine ⟨?_, h2, ?_⟩
          · simp only [if_neg (by omega : ¬ tid = t)]
            exact h1
          · simp only [List.map_append]
            simp only [List.mem_append, not_or]
            exact ⟨by simpa using h3, by simp [htne.symm]⟩
    · have hrun' : w.pool.isPoolRunning_ = false := by
        cases hx : w.pool.isPoolRunning_
        · rfl
        · exact absurd hx hrun
      simp only [applyOp, submit_notRunning w pr t hrun']
      exact ⟨h1, h2, h3⟩
  | opWorkerStep th a b =>
    by_cases hq : w.pool.taskQue_.size = 0
    · by_cases hrun : w.pool.isPoolRunning_ = true
      · by_cases hcond : w.pool.poolMode_ = PoolMode.MODE_CACHED ∧ a = true ∧ b = true ∧
            w.pool.initThreadSize_ < w.pool.curThreadSize_
        · simp only [applyOp, threadFunc_exitIdleTimeout w th a b hq hrun hcond]
          exact ⟨h1, h2, h3⟩
        · simp only [applyOp, threadFunc_keptWaiting w th a b hq hrun hcond]
          exact ⟨h1, h2, h3⟩
      · have hrun' : w.pool.isPoolRunning_ = false := by
          cases hx : w.pool.isPoolRunning_
          · rfl
          · exact absurd hx hrun
        simp only [applyOp, threadFunc_exitPoolStopped w th a b hq hrun']
        exact ⟨h1, h2, h3⟩
    · -- the worker pops and executes the top task, whose id is in the queue
      have hsplit := pop_toMulti w.pool.taskQue_ hq
      have h2' : tid ∉ Multiset.map myTask.taskId
          (w.pool.taskQue_.top ::ₘ (w.pool.taskQue_.pop).toMulti) := by
        rw [← hsplit]; exact h2
      rw [Multiset.map_cons] at h2'
      simp only [Multiset.mem_cons, not_or] at h2'
      obtain ⟨htop, hrest⟩ := h2'
      simp only [applyOp, threadFunc_execute w th a b hq]
      refine ⟨?_, hrest, ?_⟩
      · show (if tid = w.pool.taskQue_.top.taskId
            then some (runOutcome (w.payloadOf w.pool.taskQue_.top.taskId))
            else w.handles tid) = v
        rw [if_neg htop]
        exact h1
      · show tid ∉ List.map Prod.fst
            (w.executed ++ [(w.pool.taskQue_.top.taskId, ExecSite.workerThread th)])
        simp only [List.map_append, List.mem_append, List.map_cons, List.map_nil,
          List.mem_singleton, not_or]
        exact ⟨h3, htop⟩

theorem handlePinned_applyTrace (tid : Nat) (v : Option TaskOutcome) (w : World) (ops : List Op)
    (h : handlePinned tid v w) (hav : ∀ op ∈ ops, opAvoids tid op = true) :
    handlePinned tid v (applyTrace w ops) := by
  induction ops generalizing w with
  | nil => exact h
  | cons op ops ih =>
    exact ih (applyOp w op)
      (handlePinned_applyOp tid v w op h (hav op (by simp)))
      (fun o ho => hav o (by simp [ho]))

theorem untouched_applyTrace (tid : Nat) (w : World) (ops : List Op)
    (h : untouched tid w) (hav : ∀ op ∈ ops, opAvoids tid op = true) :
    untouched tid (applyTrace w ops) := by
  have hp := handlePinned_applyTrace tid none w ops ⟨h.1, h.2.1, h.2.2⟩ hav
  exact ⟨hp.1, hp.2.1, hp.2.2⟩

/-! ### Thread-count bounds along a running pool -/

theorem threadCountInv_applyOp (n0 : Int) (w : World) (op : Op)
    (h : threadCountInv n0 w) (hop : opNotStart op = true) :
    threadCountInv n0 (applyOp w op) := by
  obtain ⟨hinit, hrun⟩ := h
  cases op with
  | opSetMode m =>
    by_cases hr : checkRunningState w.pool = true
    · simp only [applyOp, setMode, if_pos hr]
      exact ⟨hinit, hrun⟩
    · have hfalse : w.pool.isPoolRunning_ = false := by
        revert hr
        simp [checkRunningState]
      simp only [applyOp, setMode, if_neg hr]
      exact ⟨hinit, fun hx => absurd hx (by simp [hfalse])⟩
  | opSetTaskQueMaxThreshHold t =>
    simp only [applyOp, setTaskQueMaxThreshHold]
    split_ifs <;> exact ⟨hinit, hrun⟩
  | opSetThreadSizeThreshHold t =>
    by_cases hr : checkRunningState w.pool = true
    · simp only [applyOp, setThreadSizeThreshHold, if_pos hr]
      exact ⟨hinit, hrun⟩
    · have hfalse : w.pool.isPoolRunning_ = false := by
        revert hr
        simp [checkRunningState]
      by_cases hm : w.pool.poolMode_ = PoolMode.MODE_CACHED
      · simp only [applyOp, setThreadSizeThreshHold, if_neg hr, if_pos hm]
        exact ⟨hinit, fun hx => absurd hx (by simp [hfalse])⟩
      · simp only [applyOp, setThreadSizeThreshHold, if_neg hr, if_neg hm]
        exact ⟨hinit, hrun⟩
  | opStart n => simp [opNotStart] at hop
  | opShutdownBegin =>
    simp only [applyOp, shutdownBegin]
    exact ⟨hinit, by intro hx; exact absurd hx (by simp)⟩
  | opSubmit pr t =>
    by_cases hr : w.pool.isPoolRunning_ = true
    · by_cases hspace : w.pool.taskQue_.size < castSizeT w.pool.taskQueMaxThreshHold_
      · by_cases hgrow : growCondition w (w.pool.taskQue_.push { weight_ := pr, taskId := t })
        · simp only [applyOp, submit_enqueue_grow w pr t hr hspace hgrow]
          refine ⟨hinit, fun _ => ⟨fun _ => ?_, fun hfix => ?_⟩⟩
          · show w.pool.curThreadSize_ + 1 ≤ w.pool.threadSizeThreshHold_
            have := hgrow.2.2
            omega
          · have hfix2 : w.pool.poolMode_ = PoolMode.MODE_FIXED := hfix
            rw [hgrow.1] at hfix2
            simp at hfix2
        · simp only [applyOp, submit_enqueue_nogrow w pr t hr hspace hgrow]
          exact ⟨hinit, hrun⟩
      · rcases hpol : w.pool.rejectionPolicy_ with _ | _ | _
        · simp only [applyOp, submit_full_abort w pr t hr hspace hpol]; exact ⟨hinit, hrun⟩
        · simp only [applyOp, submit_full_discard w pr t hr hspace hpol]; exact ⟨hinit, hrun⟩
        · simp only [applyOp, submit_full_callerRuns w pr t hr hspace hpol]; exact ⟨hinit, hrun⟩
    · have hr' : w.pool.isPoolRunning_ = false := by
        cases hx : w.pool.isPoolRunning_
        · rfl
        · exact absurd hx hr
      simp only [applyOp, submit_notRunning w pr t hr']
      exact ⟨hinit, hrun⟩
  | opWorkerStep th a b =>
    by_cases hq : w.pool.taskQue_.size = 0
    · by_cases hr : w.pool.isPoolRunning_ = true
      · by_cases hcond : w.pool.poolMode_ = PoolMode.MODE_CACHED ∧ a = true ∧ b = true ∧
            w.pool.initThreadSize_ < w.pool.curThreadSize_
        · simp only [applyOp, threadFunc_exitIdleTimeout w th a b hq hr hcond]
          refine ⟨hinit, fun _ => ⟨fun hc => ?_, fun hfix => ?_⟩⟩
          · show w.pool.curThreadSize_ - 1 ≤ w.pool.threadSizeThreshHold_
            have := (hrun hr).1 hc
            omega
          · have hfix2 : w.pool.poolMode_ = PoolMode.MODE_FIXED := hfix
            rw [hcond.1] at hfix2
            simp at hfix2
        · simp only [applyOp, threadFunc_keptWaiting w th a b hq hr hcond]
          exact ⟨hinit, hrun⟩
      · have hr' : w.pool.isPoolRunning_ = false := by
          cases hx : w.pool.isPoolRunning_
          · rfl
          · exact absurd hx hr
        simp only [applyOp, threadFunc_exitPoolStopped w th a b hq hr']
        exact ⟨hinit, by intro hx; exact absurd hx (by simp [hr'])⟩
    · simp only [applyOp, threadFunc_execute w th a b hq]
      exact ⟨hinit, hrun⟩

theorem threadCountInv_applyTrace (n0 : Int) (w : World) (ops : List Op)
    (h : threadCountInv n0 w) (hops : ∀ op ∈ ops, opNotStart op = true) :
    threadCountInv n0 (applyTrace w ops) := by
  induction ops generalizing w with
  | nil => exact h
  | cons op ops ih =>
    exact ih (applyOp w op)
      (threadCountInv_applyOp n0 w op h (hops op (by simp)))
      (fun o ho => hops o (by simp [ho]))

/-! ### The configured queue capacity stays a nonnegative int along a trace -/

theorem capBounds_applyOp (w : World) (op : Op)
    (h : 0 ≤ w.pool.taskQueMaxThreshHold_ ∧ w.pool.taskQueMaxThreshHold_ ≤ TASK_MAX_THRESHHOLD)
    (hop : capOK op = true) :
    0 ≤ (applyOp w op).pool.taskQueMaxThreshHold_ ∧
      (applyOp w op).pool.taskQueMaxThreshHold_ ≤ TASK_MAX_THRESHHOLD := by
  cases op with
  | opSetMode m =>
    simp only [applyOp, setMode]
    split_ifs <;> exact h
  | opSetTaskQueMaxThreshHold t =>
    have hbound : 0 ≤ t ∧ t ≤ TASK_MAX_THRESHHOLD := by simpa [capOK] using hop
    simp only [applyOp, setTaskQueMaxThreshHold]
    split_ifs <;> first | exact h | exact hbound
  | opSetThreadSizeThreshHold t =>
    simp only [applyOp, setThreadSizeThreshHold]
    split_ifs <;> exact h
  | opStart n => exact h
  | opShutdownBegin => exact h
  | opSubmit pr t =>
    by_cases hrun : w.pool.isPoolRunning_ = true
    · by_cases hspace : w.pool.taskQue_.size < castSizeT w.pool.taskQueMaxThreshHold_
      · by_cases hgrow : growCondition w (w.pool.taskQue_.push { weight_ := pr, taskId := t })
        · simp only [applyOp, submit_enqueue_grow w pr t hrun hspace hgrow]; exact h
        · simp only [applyOp, submit_enqueue_nogrow w pr t hrun hspace hgrow]; exact h
      · rcases hpol : w.pool.rejectionPolicy_ with _ | _ | _
        · simp only [applyOp, submit_full_abort w pr t hrun hspace hpol]; exact h
        · simp only [applyOp, submit_full_discard w pr t hrun hspace hpol]; exact h
        · simp only [applyOp, submit_full_callerRuns w pr t hrun hspace hpol]; exact h
    · have hrun' : w.pool.isPoolRunning_ = false := by
        cases hx : w.pool.isPoolRunning_
        · rfl
        · exact absurd hx hrun
      simp only [applyOp, submit_notRunning w pr t hrun']
      exact h
  | opWorkerStep th a b =>
    by_cases hq : w.pool.taskQue_.size = 0
    · by_cases hrun : w.pool.isPoolRunning_ = true
      · by_cases hcond : w.pool.poolMode_ = PoolMode.MODE_CACHED ∧ a = true ∧ b = true ∧
            w.pool.initThreadSize_ < w.pool.curThreadSize_
        · simp only [applyOp, threadFunc_exitIdleTimeout w th a b hq hrun hcond]; exact h
        · simp only [applyOp, threadFunc_keptWaiting w th a b hq hrun hcond]; exact h
      · have hrun' : w.pool.isPoolRunning_ = false := by
          cases hx : w.pool.isPoolRunning_
          · rfl
          · exact absurd hx hrun
        simp only [applyOp, threadFunc_exitPoolStopped w th a b hq hrun']; exact h
    · simp only [applyOp, threadFunc_execute w th a b hq]; exact h

theorem capBounds_applyTrace (w : World) (ops : List Op)
    (h : 0 ≤ w.pool.taskQueMaxThreshHold_ ∧ w.pool.taskQueMaxThreshHold_ ≤ TASK_MAX_THRESHHOLD)
    (hops : ∀ op ∈ ops, capOK op = true) :
    0 ≤ (applyTrace w ops).pool.taskQueMaxThreshHold_ ∧
      (applyTrace w ops).pool.taskQueMaxThreshHold_ ≤ TASK_MAX_THRESHHOLD := by
  induction ops generalizing w with
  | nil => exact h
  | cons op ops ih =>
    exact ih (applyOp w op)
      (capBounds_applyOp w op h (hops op (by simp)))
      (fun o ho => hops o (by simp [ho]))

/-! ### Casts of in-range ints to size_t are the identity -/

theorem castSizeT_of_int_range {x : Int} (h0 : 0 ≤ x) (h1 : x ≤ TASK_MAX_THRESHHOLD) :
    castSizeT x = x.toNat := by
  unfold castSizeT
  rw [Int.emod_eq_of_lt h0 (by unfold TASK_MAX_THRESHHOLD at h1; norm_num; omega)]

theorem size_lt_cap {sz : Nat} {cap : Int} (h0 : 0 ≤ cap) (h1 : cap ≤ TASK_MAX_THRESHHOLD)
    (h : sz < castSizeT cap) : (sz : Int) < cap := by
  rw [castSizeT_of_int_range h0 h1] at h
  exact Int.lt_toNat.mp h

/-! ### The claims -/

/-- C1: for every reachable state of the bounded priority queue holding at
least one element, the dequeue performed by a worker-loop iteration removes
exactly the stored item of maximum weight: the iteration executes the queue
top, whose weight dominates every stored element, and the remaining queue is
the original multiset minus that single item (strict max-heap selection,
neither approximate nor insertion order). -/
theorem C1_worker_dequeues_max (env : Nat → Except Nat Int) (ops : List Op)
    (threadid : Nat) (a b : Bool)
    (hne : (applyTrace (initWorld env) ops).pool.taskQue_.size ≠ 0) :
    (threadFunc (applyTrace (initWorld env) ops) threadid a b).2 =
      WorkerAction.executedTask ((applyTrace (initWorld env) ops).pool.taskQue_.top).taskId ∧
    (∀ i, i < (applyTrace (initWorld env) ops).pool.taskQue_.size →
      ((applyTrace (initWorld env) ops).pool.taskQue_.elems i).weight_ ≤
        ((applyTrace (initWorld env) ops).pool.taskQue_.top).weight_) ∧
    (applyTrace (initWorld env) ops).pool.taskQue_.toMulti =
      (applyTrace (initWorld env) ops).pool.taskQue_.top ::ₘ
        (threadFunc (applyTrace (initWorld env) ops) threadid a b).1.pool.taskQue_.toMulti ∧
    (threadFunc (applyTrace (initWorld env) ops) threadid a b).1.pool.taskQue_.size =
      (applyTrace (initWorld env) ops).pool.taskQue_.size - 1 := by
  have hheap := isHeap_reachable env ops
  rw [threadFunc_execute _ threadid a b hne]
  exact ⟨rfl, isHeap_le_top _ hheap, pop_toMulti _ hne, pop_size _ hne⟩

/-- Witness for C1: after starting one worker and submitting weights 5 and
9, the queue is nonempty and the worker iteration executes the weight-9
task. -/
theorem C1_worker_dequeues_max_witness :
    (applyTrace (initWorld okEnv)
      [Op.opStart 1, Op.opSubmit 5 100, Op.opSubmit 9 101]).pool.taskQue_.size ≠ 0 ∧
    (threadFunc (applyTrace (initWorld okEnv)
      [Op.opStart 1, Op.opSubmit 5 100, Op.opSubmit 9 101]) 0 false false).2 =
      WorkerAction.executedTask 101 := by
  refine ⟨by decide, ?_⟩
  have h := C1_worker_dequeues_max okEnv
    [Op.opStart 1, Op.opSubmit 5 100, Op.opSubmit 9 101] 0 false false (by decide)
  exact h.1.trans (by decide)

/-- C2: with the pool running, the Abort policy configured and the queue
full for the whole bounded wait, submitTaskWithPriority throws the
queue-full failure and leaves the world, queue included, unchanged; a fresh
task id so rejected is never executed anywhere and its completion handle is
never fulfilled along any continuation that does not resubmit it. -/
theorem C2_abort_rejects_queue_full (w : World) (pr : Int) (tid : Nat) (ops : List Op)
    (hrun : w.pool.isPoolRunning_ = true)
    (hpol : w.pool.rejectionPolicy_ = RejectionPolicy.Abort)
    (hfull : ¬ (w.pool.taskQue_.size < castSizeT w.pool.taskQueMaxThreshHold_))
    (hfresh : untouched tid w)
    (hav : ∀ op ∈ ops, opAvoids tid op = true) :
    submitTaskWithPriority w pr tid =
      (w, SubmitResult.threw PoolError.queueFull, [Ev.lockAcquired, Ev.lockReleased]) ∧
    (applyTrace (submitTaskWithPriority w pr tid).1 ops).handles tid = none ∧
    tid ∉ ((applyTrace (submitTaskWithPriority w pr tid).1 ops).executed.map Prod.fst) := by
  have heq := submit_full_abort w pr tid hrun hfull hpol
  have hu := untouched_applyTrace tid w ops hfresh hav
  rw [heq]
  exact ⟨rfl, hu.1, hu.2.2⟩

/-- Witness for C2 on a running capacity-0 pool under Abort. -/
theorem C2_abort_rejects_queue_full_witness :
    (fullQueueWorld RejectionPolicy.Abort).pool.isPoolRunning_ = true ∧
    (submitTaskWithPriority (fullQueueWorld RejectionPolicy.Abort) 3 7).2.1 =
      SubmitResult.threw PoolError.queueFull ∧
    (submitTaskWithPriority (fullQueueWorld RejectionPolicy.Abort) 3 7).1 =
      fullQueueWorld RejectionPolicy.Abort ∧
    (applyTrace (submitTaskWithPriority (fullQueueWorld RejectionPolicy.Abort) 3 7).1
      [Op.opWorkerStep 0 false false]).handles 7 = none := by
  have h := C2_abort_rejects_queue_full (fullQueueWorld RejectionPolicy.Abort) 3 7
    [Op.opWorkerStep 0 false false] (by decide) (by decide) (by decide) (by decide)
    (by decide)
  exact ⟨by decide, by rw [h.1], by rw [h.1], h.2.1⟩

/-- C3 (amended): with the pool running, the Discard policy configured and
the queue full for the whole bounded wait, submitTaskWithPriority returns
the future normally (no failure is raised to the submitter) and silently
drops the item: it is never enqueued and its payload never executed, here or
along any continuation that does not resubmit the id.  Destroying the unrun
packaged_task at return abandons its shared state, so the returned handle
is already ready holding the broken_promise failure at the moment submit
returns, and it stays exactly so thereafter: an untimed wait on it returns
at once with broken_promise instead of blocking forever. -/
theorem C3_discard_breaks_promise (w : World) (pr : Int) (tid : Nat) (ops : List Op)
    (hrun : w.pool.isPoolRunning_ = true)
    (hpol : w.pool.rejectionPolicy_ = RejectionPolicy.Discard)
    (hfull : ¬ (w.pool.taskQue_.size < castSizeT w.pool.taskQueMaxThreshHold_))
    (hfresh : untouched tid w)
    (hav : ∀ op ∈ ops, opAvoids tid op = true) :
    submitTaskWithPriority w pr tid =
      ({ w with handles := fun k => if k = tid then some TaskOutcome.brokenPromise
                           else w.handles k },
       SubmitResult.returnedFuture tid, [Ev.lockAcquired, Ev.lockReleased]) ∧
    (submitTaskWithPriority w pr tid).1.pool = w.pool ∧
    (applyTrace (submitTaskWithPriority w pr tid).1 ops).handles tid =
      some TaskOutcome.brokenPromise ∧
    tid ∉ Multiset.map myTask.taskId
      (applyTrace (submitTaskWithPriority w pr tid).1 ops).pool.taskQue_.toMulti ∧
    tid ∉ ((applyTrace (submitTaskWithPriority w pr tid).1 ops).executed.map Prod.fst) := by
  have heq := submit_full_discard w pr tid hrun hfull hpol
  have hpin : handlePinned tid (some TaskOutcome.brokenPromise)
      { w with handles := fun k => if k = tid then some TaskOutcome.brokenPromise
                          else w.handles k } := by
    refine ⟨?_, hfresh.2.1, hfresh.2.2⟩
    show (if tid = tid then some TaskOutcome.brokenPromise else w.handles tid) = _
    rw [if_pos rfl]
  have hu := handlePinned_applyTrace tid (some TaskOutcome.brokenPromise) _ ops hpin hav
  rw [heq]
  exact ⟨rfl, rfl, hu.1, hu.2.1, hu.2.2⟩

/-- Witness for C3 on a running capacity-0 pool under Discard: the future is
returned normally, the handle is already broken at return and stays broken
through a further worker step. -/
theorem C3_discard_breaks_promise_witness :
    (submitTaskWithPriority (fullQueueWorld RejectionPolicy.Discard) 3 7).2.1 =
      SubmitResult.returnedFuture 7 ∧
    (submitTaskWithPriority (fullQueueWorld RejectionPolicy.Discard) 3 7).1.handles 7 =
      some TaskOutcome.brokenPromise ∧
    (applyTrace (submitTaskWithPriority (fullQueueWorld RejectionPolicy.Discard) 3 7).1
      [Op.opWorkerStep 0 false false]).handles 7 = some TaskOutcome.brokenPromise := by
  have h := C3_discard_breaks_promise (fullQueueWorld RejectionPolicy.Discard) 3 7
    [Op.opWorkerStep 0 false false] (by decide) (by decide) (by decide) (by decide)
    (by decide)
  exact ⟨by rw [h.1], by rw [h.1]; decide, h.2.2.1⟩

/-- Counterexample for C3 as stated: on a running capacity-0 pool under
Discard, the completion handle returned for the discarded task 7 is already
fulfilled, with the broken_promise failure, at the moment submit returns, so
it is not left forever pending and an untimed wait on it does not block. -/
theorem C3_discard_counterexample :
    (submitTaskWithPriority (fullQueueWorld RejectionPolicy.Discard) 3 7).2.1 =
      SubmitResult.returnedFuture 7 ∧
    (submitTaskWithPriority (fullQueueWorld RejectionPolicy.Discard) 3 7).1.handles 7 ≠
      none ∧
    (submitTaskWithPriority (fullQueueWorld RejectionPolicy.Discard) 3 7).1.handles 7 =
      some TaskOutcome.brokenPromise := by
  decide

/-- C4: with the pool running, the CallerRuns policy configured and the
queue full for the whole bounded wait, the payload runs synchronously on the
submitting thread after the coordination lock is released (the
executedInCaller event follows lockReleased), the returned world already
holds the handle fulfilled with the payload result or failure, and the pool
state is untouched: the item is never re-enqueued. -/
theorem C4_callerRuns_executes_synchronously (w : World) (pr : Int) (tid : Nat)
    (hrun : w.pool.isPoolRunning_ = true)
    (hpol : w.pool.rejectionPolicy_ = RejectionPolicy.CallerRuns)
    (hfull : ¬ (w.pool.taskQue_.size < castSizeT w.pool.taskQueMaxThreshHold_)) :
    submitTaskWithPriority w pr tid =
      ({ w with
          handles := fun k => if k = tid then some (runOutcome (w.payloadOf tid)) else w.handles k
          executed := w.executed ++ [(tid, ExecSite.callerThread)] },
       SubmitResult.returnedFuture tid,
       [Ev.lockAcquired, Ev.lockReleased, Ev.executedInCaller tid]) ∧
    (submitTaskWithPriority w pr tid).1.handles tid = some (runOutcome (w.payloadOf tid)) ∧
    (submitTaskWithPriority w pr tid).1.pool = w.pool := by
  have heq := submit_full_callerRuns w pr tid hrun hfull hpol
  refine ⟨heq, ?_, ?_⟩
  · rw [heq]
    simp
  · rw [heq]

/-- Witness for C4: the failing payload 33 runs in the caller and its
failure is already in the handle when submit returns. -/
theorem C4_callerRuns_executes_synchronously_witness :
    (submitTaskWithPriority (fullQueueWorld RejectionPolicy.CallerRuns) 3 33).1.handles 33 =
      some (TaskOutcome.error 7) ∧
    (submitTaskWithPriority (fullQueueWorld RejectionPolicy.CallerRuns) 3 33).2.1 =
      SubmitResult.returnedFuture 33 ∧
    (submitTaskWithPriority (fullQueueWorld RejectionPolicy.CallerRuns) 3 33).2.2 =
      [Ev.lockAcquired, Ev.lockReleased, Ev.executedInCaller 33] := by
  have h := C4_callerRuns_executes_synchronously (fullQueueWorld RejectionPolicy.CallerRuns)
    3 33 (by decide) (by decide) (by decide)
  exact ⟨h.2.1.trans (by decide), by rw [h.1], by rw [h.1]⟩

/-- C5: submitTaskWithPriority throws the pool-not-accepting failure exactly
when the running flag is false, such a rejection changes nothing, and the
constructor initializes the flag to false, so the rejection covers both a
pool whose shutdown has begun and a pool never started. -/
theorem C5_reject_iff_not_running (w : World) (pr : Int) (tid : Nat) :
    ((submitTaskWithPriority w pr tid).2.1 = SubmitResult.threw PoolError.poolNotAccepting ↔
      w.pool.isPoolRunning_ = false) ∧
    (w.pool.isPoolRunning_ = false → (submitTaskWithPriority w pr tid).1 = w) ∧
    threadPoolCtor.isPoolRunning_ = false := by
  refine ⟨⟨?_, ?_⟩, ?_, rfl⟩
  · intro hres
    cases hx : w.pool.isPoolRunning_ with
    | false => rfl
    | true =>
      exfalso
      by_cases hspace : w.pool.taskQue_.size < castSizeT w.pool.taskQueMaxThreshHold_
      · by_cases hgrow : growCondition w (w.pool.taskQue_.push { weight_ := pr, taskId := tid })
        · rw [submit_enqueue_grow w pr tid hx hspace hgrow] at hres
          simp at hres
        · rw [submit_enqueue_nogrow w pr tid hx hspace hgrow] at hres
          simp at hres
      · rcases hpol : w.pool.rejectionPolicy_ with _ | _ | _
        · rw [submit_full_abort w pr tid hx hspace hpol] at hres
          simp at hres
        · rw [submit_full_discard w pr tid hx hspace hpol] at hres
          simp at hres
        · rw [submit_full_callerRuns w pr tid hx hspace hpol] at hres
          simp at hres
  · intro hrun
    rw [submit_notRunning w pr tid hrun]
  · intro hrun
    rw [submit_notRunning w pr tid hrun]

/-- Witness for C5 on a freshly constructed, never started pool. -/
theorem C5_reject_iff_not_running_witness :
    (submitTaskWithPriority (initWorld okEnv) 0 7).2.1 =
      SubmitResult.threw PoolError.poolNotAccepting := by
  exact ((C5_reject_iff_not_running (initWorld okEnv) 0 7).1).mpr (by decide)

/-- C6: along any history whose configured queue capacities stay in the
nonnegative int range, a submission enqueues only behind the under-lock
guard comparing the queue size against the configured capacity, so
immediately after every successful (enqueueing) submission the queue size is
at most the configured capacity, which the submission leaves unchanged. -/
theorem C6_queue_bounded (env : Nat → Except Nat Int) (ops : List Op) (pr : Int) (tid : Nat)
    (hcaps : ∀ op ∈ ops, capOK op = true)
    (hmem : Ev.enqueuedEv tid ∈
      (submitTaskWithPriority (applyTrace (initWorld env) ops) pr tid).2.2) :
    ((submitTaskWithPriority (applyTrace (initWorld env) ops) pr tid).1.pool.taskQue_.size : Int)
        ≤ (applyTrace (initWorld env) ops).pool.taskQueMaxThreshHold_ ∧
    (submitTaskWithPriority (applyTrace (initWorld env) ops) pr tid).1.pool.taskQueMaxThreshHold_
        = (applyTrace (initWorld env) ops).pool.taskQueMaxThreshHold_ ∧
    (applyTrace (initWorld env) ops).pool.taskQue_.size
        < castSizeT (applyTrace (initWorld env) ops).pool.taskQueMaxThreshHold_ := by
  have hcap := capBounds_applyTrace (initWorld env) ops
    (by constructor <;> norm_num [initWorld, threadPoolCtor, TASK_MAX_THRESHHOLD]) hcaps
  set w := applyTrace (initWorld env) ops with hw
  by_cases hrun : w.pool.isPoolRunning_ = true
  · by_cases hspace : w.pool.taskQue_.size < castSizeT w.pool.taskQueMaxThreshHold_
    · have hlt : (w.pool.taskQue_.size : Int) < w.pool.taskQueMaxThreshHold_ :=
        size_lt_cap hcap.1 hcap.2 hspace
      by_cases hgrow : growCondition w (w.pool.taskQue_.push { weight_ := pr, taskId := tid })
      · rw [submit_enqueue_grow w pr tid hrun hspace hgrow]
        refine ⟨?_, rfl, hspace⟩
        show (((w.pool.taskQue_.push { weight_ := pr, taskId := tid }).size : Nat) : Int) ≤ _
        rw [push_size]
        push_cast
        omega
      · rw [submit_enqueue_nogrow w pr tid hrun hspace hgrow]
        refine ⟨?_, rfl, hspace⟩
        show (((w.pool.taskQue_.push { weight_ := pr, taskId := tid }).size : Nat) : Int) ≤ _
        rw [push_size]
        push_cast
        omega
    · exfalso
      rcases hpol : w.pool.rejectionPolicy_ with _ | _ | _
      · rw [submit_full_abort w pr tid hrun hspace hpol] at hmem
        simp at hmem
      · rw [submit_full_discard w pr tid hrun hspace hpol] at hmem
        simp at hmem
      · rw [submit_full_callerRuns w pr tid hrun hspace hpol] at hmem
        simp at hmem
  · exfalso
    have hrun' : w.pool.isPoolRunning_ = false := by
      cases hx : w.pool.isPoolRunning_
      · rfl
      · exact absurd hx hrun
    rw [submit_notRunning w pr tid hrun'] at hmem
    simp at hmem

/-- Witness for C6: a successful enqueue on a started pool stays within the
default capacity. -/
theorem C6_queue_bounded_witness :
    Ev.enqueuedEv 50 ∈
      (submitTaskWithPriority (applyTrace (initWorld okEnv) [Op.opStart 1]) 3 50).2.2 ∧
    ((submitTaskWithPriority (applyTrace (initWorld okEnv) [Op.opStart 1]) 3 50).1.pool.taskQue_.size : Int)
        ≤ (applyTrace (initWorld okEnv) [Op.opStart 1]).pool.taskQueMaxThreshHold_ := by
  refine ⟨by decide, ?_⟩
  exact (C6_queue_bounded okEnv [Op.opStart 1] 3 50 (by decide) (by decide)).1

/-- C7 (amended): in fixed mode the thread count equals the initial count
passed to start for the whole running lifetime; in cached mode it never
exceeds the configured ceiling provided start was called with an initial
count within the ceiling (the growth path itself always respects the
ceiling, but start performs no such clamp). -/
theorem C7_thread_bounds_amended (w0 : World) (n : Int) (ops : List Op)
    (hceil : w0.pool.poolMode_ = PoolMode.MODE_CACHED → n ≤ w0.pool.threadSizeThreshHold_)
    (hops : ∀ op ∈ ops, opNotStart op = true)
    (hrun : (applyTrace (applyOp w0 (Op.opStart n)) ops).pool.isPoolRunning_ = true) :
    ((applyTrace (applyOp w0 (Op.opStart n)) ops).pool.poolMode_ = PoolMode.MODE_CACHED →
      getCurrentThreadCount (applyTrace (applyOp w0 (Op.opStart n)) ops).pool ≤
        (applyTrace (applyOp w0 (Op.opStart n)) ops).pool.threadSizeThreshHold_) ∧
    ((applyTrace (applyOp w0 (Op.opStart n)) ops).pool.poolMode_ = PoolMode.MODE_FIXED →
      getCurrentThreadCount (applyTrace (applyOp w0 (Op.opStart n)) ops).pool = n) := by
  have hstart : threadCountInv n (applyOp w0 (Op.opStart n)) := by
    refine ⟨rfl, fun _ => ⟨fun hc => ?_, fun _ => rfl⟩⟩
    exact hceil hc
  have hinv := threadCountInv_applyTrace n _ ops hstart hops
  exact hinv.2 hrun

/-- Witness for C7 on a fixed pool started with 2 threads. -/
theorem C7_thread_bounds_amended_witness :
    (applyTrace (applyOp (initWorld okEnv) (Op.opStart 2)) [Op.opSubmit 1 40]).pool.isPoolRunning_ = true ∧
    getCurrentThreadCount
      (applyTrace (applyOp (initWorld okEnv) (Op.opStart 2)) [Op.opSubmit 1 40]).pool = 2 := by
  refine ⟨by decide, ?_⟩
  exact (C7_thread_bounds_amended (initWorld okEnv) 2 [Op.opSubmit 1 40]
    (fun _ => by decide) (by decide) (by decide)).2 (by decide)

/-- Counterexample for C7 as stated: a cached-mode pool whose ceiling was
configured to 2 before start(3) runs with thread count 3 above the ceiling,
because start never clamps the initial count against the ceiling. -/
theorem C7_thread_bounds_counterexample :
    (applyTrace (initWorld okEnv)
      [Op.opSetMode PoolMode.MODE_CACHED, Op.opSetThreadSizeThreshHold 2,
       Op.opStart 3]).pool.isPoolRunning_ = true ∧
    (applyTrace (initWorld okEnv)
      [Op.opSetMode PoolMode.MODE_CACHED, Op.opSetThreadSizeThreshHold 2,
       Op.opStart 3]).pool.poolMode_ = PoolMode.MODE_CACHED ∧
    (applyTrace (initWorld okEnv)
      [Op.opSetMode PoolMode.MODE_CACHED, Op.opSetThreadSizeThreshHold 2,
       Op.opStart 3]).pool.threadSizeThreshHold_ = 2 ∧
    getCurrentThreadCount (applyTrace (initWorld okEnv)
      [Op.opSetMode PoolMode.MODE_CACHED, Op.opSetThreadSizeThreshHold 2,
       Op.opStart 3]).pool = 3 ∧
    ¬ getCurrentThreadCount (applyTrace (initWorld okEnv)
      [Op.opSetMode PoolMode.MODE_CACHED, Op.opSetThreadSizeThreshHold 2,
       Op.opStart 3]).pool ≤
      (applyTrace (initWorld okEnv)
        [Op.opSetMode PoolMode.MODE_CACHED, Op.opSetThreadSizeThreshHold 2,
         Op.opStart 3]).pool.threadSizeThreshHold_ := by
  decide

/-- C8: after a successful enqueue in cached mode (with the idle counter in
its int range), exactly one additional worker is spawned if and only if the
post-enqueue queue size strictly exceeds the idle-thread count and the
thread count is strictly below the ceiling; the spawned worker is appended
to the registry and the count incremented before the lockReleased event, and
its startedThread event comes only after lockReleased. -/
theorem C8_elastic_spawn_iff (w : World) (pr : Int) (tid : Nat)
    (hrun : w.pool.isPoolRunning_ = true)
    (hmode : w.pool.poolMode_ = PoolMode.MODE_CACHED)
    (hspace : w.pool.taskQue_.size < castSizeT w.pool.taskQueMaxThreshHold_)
    (hidle0 : 0 ≤ w.pool.idleThreadSize_)
    (hidle1 : w.pool.idleThreadSize_ ≤ TASK_MAX_THRESHHOLD) :
    (w.pool.idleThreadSize_ <
        ((w.pool.taskQue_.push { weight_ := pr, taskId := tid }).size : Int) ∧
       w.pool.curThreadSize_ < w.pool.threadSizeThreshHold_ →
      submitTaskWithPriority w pr tid =
        ({ w with pool := { w.pool with
             taskQue_ := w.pool.taskQue_.push { weight_ := pr, taskId := tid }
             threads_ := w.pool.threads_ ++ [w.pool.nextThreadId]
             curThreadSize_ := w.pool.curThreadSize_ + 1
             nextThreadId := w.pool.nextThreadId + 1 } },
         SubmitResult.returnedFuture tid,
         [Ev.lockAcquired, Ev.enqueuedEv tid, Ev.registeredThread w.pool.nextThreadId,
          Ev.lockReleased, Ev.startedThread w.pool.nextThreadId])) ∧
    (¬ (w.pool.idleThreadSize_ <
          ((w.pool.taskQue_.push { weight_ := pr, taskId := tid }).size : Int) ∧
        w.pool.curThreadSize_ < w.pool.threadSizeThreshHold_) →
      submitTaskWithPriority w pr tid =
        ({ w with pool := { w.pool with
             taskQue_ := w.pool.taskQue_.push { weight_ := pr, taskId := tid } } },
         SubmitResult.returnedFuture tid,
         [Ev.lockAcquired, Ev.enqueuedEv tid, Ev.lockReleased])) := by
  have hcast : castSizeT w.pool.idleThreadSize_ = w.pool.idleThreadSize_.toNat :=
    castSizeT_of_int_range hidle0 hidle1
  have hiff : (castSizeT w.pool.idleThreadSize_ <
      (w.pool.taskQue_.push { weight_ := pr, taskId := tid }).size) ↔
      w.pool.idleThreadSize_ <
        ((w.pool.taskQue_.push { weight_ := pr, taskId := tid }).size : Int) := by
    rw [hcast, push_size]
    exact Int.toNat_lt' (by omega)
  constructor
  · intro hcond
    exact submit_enqueue_grow w pr tid hrun hspace ⟨hmode, hiff.mpr hcond.1, hcond.2⟩
  · intro hcond
    apply submit_enqueue_nogrow w pr tid hrun hspace
    unfold growCondition
    intro hg
    exact hcond ⟨hiff.mp hg.2.1, hg.2.2⟩

/-- Witness for C8: on a running cached pool with no worker, one submission
spawns exactly one worker, registered under the lock and started after it. -/
theorem C8_elastic_spawn_iff_witness :
    (submitTaskWithPriority cachedWorld 1 60).2.2 =
      [Ev.lockAcquired, Ev.enqueuedEv 60, Ev.registeredThread 0, Ev.lockReleased,
       Ev.startedThread 0] ∧
    (submitTaskWithPriority cachedWorld 1 60).1.pool.curThreadSize_ = 1 := by
  have h := (C8_elastic_spawn_iff cachedWorld 1 60 (by decide) (by decide) (by decide)
    (by decide) (by decide)).1 (by decide)
  constructor
  · rw [h]
    decide
  · rw [h]
    decide

/-- C9: a payload that raises is captured by its packaged_task into the
completion handle as that task's failure; the worker iteration that ran it
reports a normal executedTask action, leaves the registry, counters and
running flag exactly as any succeeding payload would, and a follow-up
iteration of the same worker dequeues the next task. -/
theorem C9_payload_failure_contained (w : World) (threadid : Nat) (a b : Bool) (e : Nat)
    (hne : w.pool.taskQue_.size ≠ 0)
    (herr : w.payloadOf (w.pool.taskQue_.top).taskId = Except.error e) :
    threadFunc w threadid a b =
      ({ w with
          pool := { w.pool with taskQue_ := w.pool.taskQue_.pop }
          handles := fun k => if k = (w.pool.taskQue_.top).taskId
            then some (TaskOutcome.error e) else w.handles k
          executed := w.executed ++
            [((w.pool.taskQue_.top).taskId, ExecSite.workerThread threadid)] },
       WorkerAction.executedTask (w.pool.taskQue_.top).taskId) ∧
    (∀ a2 b2 : Bool, (threadFunc w threadid a b).1.pool.taskQue_.size ≠ 0 →
      (threadFunc (threadFunc w threadid a b).1 threadid a2 b2).2 =
        WorkerAction.executedTask
          ((threadFunc w threadid a b).1.pool.taskQue_.top).taskId) := by
  have heq := threadFunc_execute w threadid a b hne
  rw [herr] at heq
  simp only [runOutcome] at heq
  refine ⟨heq, ?_⟩
  intro a2 b2 hne2
  rw [threadFunc_execute _ threadid a2 b2 hne2]

/-- Witness for C9: the failing payload 33 is executed, its failure code 7
is stored in its handle, and the worker is not removed. -/
theorem C9_payload_failure_contained_witness :
    ((applyTrace (initWorld errEnv) [Op.opStart 1, Op.opSubmit 5 33]).pool.taskQue_.top).taskId
      = 33 ∧
    (threadFunc (applyTrace (initWorld errEnv) [Op.opStart 1, Op.opSubmit 5 33])
      0 false false).1.handles 33 = some (TaskOutcome.error 7) ∧
    (threadFunc (applyTrace (initWorld errEnv) [Op.opStart 1, Op.opSubmit 5 33])
      0 false false).2 = WorkerAction.executedTask 33 ∧
    (threadFunc (applyTrace (initWorld errEnv) [Op.opStart 1, Op.opSubmit 5 33])
      0 false false).1.pool.threads_ =
      (applyTrace (initWorld errEnv) [Op.opStart 1, Op.opSubmit 5 33]).pool.threads_ := by
  have h := C9_payload_failure_contained
    (applyTrace (initWorld errEnv) [Op.opStart 1, Op.opSubmit 5 33]) 0 false false 7
    (by decide) (by rfl)
  refine ⟨by decide, ?_, ?_, ?_⟩
  · rw [h.1]
    decide
  · rw [h.1]
    decide
  · rw [h.1]

/-- C10 (amended): the configuration setters setMode,
setTaskQueMaxThreshHold and setThreadSizeThreshHold are no-ops exactly while
the running flag is true, that is from start until shutdown begins; once a
begun shutdown has cleared the flag, the guard passes again and the setters
mutate configuration. -/
theorem C10_setters_noop_while_running (s : ThreadPoolState) (m : PoolMode) (t u : Int)
    (hrun : s.isPoolRunning_ = true) :
    setMode s m = s ∧ setTaskQueMaxThreshHold s t = s ∧ setThreadSizeThreshHold s u = s := by
  have hchk : checkRunningState s = true := hrun
  refine ⟨?_, ?_, ?_⟩ <;>
    simp [setMode, setTaskQueMaxThreshHold, setThreadSizeThreshHold, hchk]

/-- Witness for C10 on a freshly started pool. -/
theorem C10_setters_noop_while_running_witness :
    setMode (start threadPoolCtor 1) PoolMode.MODE_CACHED = start threadPoolCtor 1 := by
  exact (C10_setters_noop_while_running (start threadPoolCtor 1) PoolMode.MODE_CACHED 0 0
    (by decide)).1

/-- Counterexample for C10 as stated: after start and the beginning of
shutdown the pool has left the Created state for good, yet setMode changes
the mode from MODE_FIXED to MODE_CACHED, because checkRunningState only
checks the running flag, which shutdown cleared. -/
theorem C10_setters_counterexample :
    (applyTrace (initWorld okEnv)
      [Op.opStart 1, Op.opShutdownBegin]).pool.poolMode_ = PoolMode.MODE_FIXED ∧
    (applyTrace (initWorld okEnv)
      [Op.opStart 1, Op.opShutdownBegin,
       Op.opSetMode PoolMode.MODE_CACHED]).pool.poolMode_ = PoolMode.MODE_CACHED := by
  decide
